import Mathlib

/-!
Verification development for the mine_viewer repository: a shallow embedding of
the NBT decoder, region/chunk decoding, the appearance cache (texture loader)
and the top-down renderer, together with theorems settling the frozen claims.

Machine integers are modelled as Nat/Int. Rust HashMap values are modelled as
association lists whose list order stands for the (unspecified) iteration
order; HashMap.insert replaces an existing binding in place. Rust panics and
process aborts are modelled as the error value RErr.fatal, recoverable
io::Error values as RErr.ioError. The NBT parser is written with an explicit
fuel argument to make the recursion structural; every theorem quantifies over
the fuel through an equation hypothesis, so no behaviour depends on a
particular fuel value.
-/

set_option maxRecDepth 100000

namespace MineViewer

/-- Error outcomes: fatal models a Rust panic or abort, ioError a recoverable
std::io::Error, fuelOut exhaustion of the parser fuel. -/
inductive RErr where
  | fatal
  | ioError
  | fuelOut
deriving DecidableEq, Repr

/-- Association-list lookup, first binding wins (models HashMap::get). -/
def lookupA {α β : Type} [DecidableEq α] : List (α × β) → α → Option β
  | [], _ => none
  | (k, v) :: rest, key => if k = key then some v else lookupA rest key

/-- Association-list insert, replacing an existing binding in place
(models HashMap::insert). -/
def insertA {α β : Type} [DecidableEq α] : List (α × β) → α → β → List (α × β)
  | [], key, val => [(key, val)]
  | (k, v) :: rest, key, val =>
    if k = key then (k, val) :: rest else (k, v) :: insertA rest key val

/-- One RGBA pixel; channels are byte values 0..255. -/
structure Pixel where
  r : Nat
  g : Nat
  b : Nat
  a : Nat
deriving DecidableEq, Repr

/-- An RGBA raster (image::RgbaImage): dimensions plus a pixel function. -/
structure Image where
  width : Nat
  height : Nat
  pix : Nat → Nat → Pixel

/-- put_pixel. -/
def Image.put (img : Image) (x y : Nat) (p : Pixel) : Image :=
  ⟨img.width, img.height, fun u v => if u = x ∧ v = y then p else img.pix u v⟩

/-- The pixels() iterator of the image crate, row-major. -/
def Image.pixels (img : Image) : List Pixel :=
  (List.range img.height).flatMap (fun y =>
    (List.range img.width).map (fun x => img.pix x y))

/-- loader.rs image_avg: sums R,G,B over pixels with non-zero alpha, but the
divisor n starts at 1, and each quotient is cast to u8. -/
def image_avg (img : Image) : Nat × Nat × Nat :=
  let f := img.pixels.foldl
    (fun (acc : Nat × Nat × Nat × Nat) p =>
      if p.a ≠ 0 then (acc.1 + p.r, acc.2.1 + p.g, acc.2.2.1 + p.b, acc.2.2.2 + 1)
      else acc)
    (0, 0, 0, 1)
  ((f.1 / f.2.2.2) % 256, (f.2.1 / f.2.2.2) % 256, (f.2.2.1 / f.2.2.2) % 256)

/-- loader.rs clamp on i16 values. -/
def clamp (value mn mx : Int) : Int :=
  if value > mx then mx else if value < mn then mn else value

/-- loader.rs taint_image: offset R,G,B by the tint with clamping to 0..255. -/
def taint_image (img : Image) (taint : Int × Int × Int) : Image :=
  ⟨img.width, img.height, fun x y =>
    let p := img.pix x y
    ⟨(clamp ((p.r : Int) + taint.1) 0 255).toNat,
     (clamp ((p.g : Int) + taint.2.1) 0 255).toNat,
     (clamp ((p.b : Int) + taint.2.2) 0 255).toNat,
     p.a⟩⟩

/-- loader.rs is_transparent: true iff some pixel has alpha other than 255. -/
def is_transparent (img : Image) : Bool :=
  img.pixels.any (fun p => p.a ≠ 255)

/-- crop(0,0,16,16): the image crate clips the crop rectangle to the image. -/
def crop16 (img : Image) : Image :=
  ⟨min 16 img.width, min 16 img.height, img.pix⟩

/-- serde_json::Value restricted to the shapes the loader consumes. -/
inductive Json where
  | null
  | jbool (b : Bool)
  | num (n : Int)
  | str (s : String)
  | arr (elems : List Json)
  | obj (fields : List (String × Json))

/-- Value::get on an object (None on any other shape). -/
def Json.get : Json → String → Option Json
  | .obj fields, key => lookupA fields key
  | _, _ => none

/-- Value string indexing sugar: Null when absent or not an object. -/
def Json.idxS (j : Json) (key : String) : Json :=
  (j.get key).getD .null

/-- Value array indexing sugar: Null when out of range or not an array. -/
def Json.idxN : Json → Nat → Json
  | .arr elems, i => elems.getD i .null
  | _, _ => .null

/-- Value::as_str. -/
def Json.as_str : Json → Option String
  | .str s => some s
  | _ => none

/-- Value::is_array. -/
def Json.is_array : Json → Bool
  | .arr _ => true
  | _ => false

/-- The resource tree on disk, abstracted as lookup functions: blockstate JSON
by block stem, model JSON by model name, opened texture image by texture name.
A result of none models a missing or unreadable file. -/
structure Resources where
  blockstates : String → Option Json
  models : String → Option Json
  textures : String → Option Image

/-- loader.rs get_model: strips the 10-byte namespace from the name (string
slicing panics when the name is shorter), reads the blockstate JSON (unwrap
panics when missing), then probes the variants object. A missing variants
object yields none; a variants object without the requested properties key is
the panic at loader.rs line 79. -/
def get_model (res : Resources) (name properties : String) : Except RErr (Option String) :=
  if name.length < 10 then .error .fatal
  else
    match res.blockstates (name.drop 10) with
    | none => .error .fatal
    | some json =>
      match json.get "variants" with
      | some variants =>
        match variants.get properties with
        | some variant =>
          if variant.is_array then
            match ((variant.idxN 0).idxS "model").as_str with
            | some m => .ok (some m)
            | none => .error .fatal
          else
            match (variant.idxS "model").as_str with
            | some m => .ok (some m)
            | none => .error .fatal
        | none => .error .fatal
      | none => .ok none

/-- loader.rs get_texture: reads the model JSON (unwrap panics when missing)
and picks the first texture reference among top, all, particle. -/
def get_texture (res : Resources) (model : String) : Except RErr (Option String) :=
  match res.models model with
  | none => .error .fatal
  | some json =>
    match json.get "textures" with
    | some textures =>
      match textures.get "top" with
      | some t =>
        match t.as_str with
        | some s => .ok (some s)
        | none => .error .fatal
      | none =>
        match textures.get "all" with
        | some t =>
          match t.as_str with
          | some s => .ok (some s)
          | none => .error .fatal
        | none =>
          match textures.get "particle" with
          | some t =>
            match t.as_str with
            | some s => .ok (some s)
            | none => .error .fatal
          | none => .ok none
    | none => .ok none

/-- loader.rs TextureLoader: the texture vector, the lookup map, and the
biome tints. -/
structure TextureLoader where
  textures : List (Image × Bool × (Nat × Nat × Nat))
  textures_map : List ((String × String) × Option Nat)
  biome_blocks : List (String × (Int × Int × Int))

/-- loader.rs TextureLoader::load. On a hit the cached optional handle is
returned unchanged. On a miss the blockstate and model JSON are resolved; on
success the texture is opened (unwrap panics when missing), cropped, possibly
tinted, measured, appended, and the new handle is cached; on either
resolution returning none the key is negatively cached. -/
def TextureLoader.load (res : Resources) (st : TextureLoader) (name properties : String) :
    Except RErr (Option Nat × TextureLoader) :=
  match lookupA st.textures_map (name, properties) with
  | some index => .ok (index, st)
  | none =>
    match get_model res name properties with
    | .error e => .error e
    | .ok (some model) =>
      match get_texture res model with
      | .error e => .error e
      | .ok (some texName) =>
        match res.textures texName with
        | none => .error .fatal
        | some opened =>
          let texture := crop16 opened
          let texture :=
            match lookupA st.biome_blocks name with
            | some taint => taint_image texture taint
            | none => texture
          let avg := image_avg texture
          let tr := is_transparent texture
          let textures2 := st.textures ++ [(texture, tr, avg)]
          .ok (some (textures2.length - 1),
            ⟨textures2,
             insertA st.textures_map (name, properties) (some (textures2.length - 1)),
             st.biome_blocks⟩)
      | .ok none =>
        .ok (none, ⟨st.textures, insertA st.textures_map (name, properties) none,
          st.biome_blocks⟩)
    | .ok none =>
      .ok (none, ⟨st.textures, insertA st.textures_map (name, properties) none,
        st.biome_blocks⟩)

/-! ## NBT decoder (nbt.rs) -/

/-- A raw byte stream; every element is a byte value 0..255. -/
abbrev Bytes := List Nat

/-- nbt.rs Tag. Floats carry their raw big-endian bit patterns, which is all
the parser ever produces or consumes. A compound is an association list whose
order stands for the HashMap iteration order. -/
inductive Tag where
  | byte (v : Int)
  | short (v : Int)
  | int (v : Int)
  | long (v : Int)
  | float (bits : Nat)
  | double (bits : Nat)
  | byteArray (v : List Int)
  | string (s : String)
  | list (l : List Tag)
  | compound (c : List (String × Tag))
  | intArray (v : List Int)
  | longArray (v : List Int)

/-- nbt.rs Compound. -/
abbrev Compound := List (String × Tag)

/-- Tag::as_compound. -/
def Tag.as_compound : Tag → Option Compound
  | .compound c => some c
  | _ => none

/-- Tag::as_i8. -/
def Tag.as_i8 : Tag → Option Int
  | .byte v => some v
  | _ => none

/-- Tag::as_string. -/
def Tag.as_string : Tag → Option String
  | .string s => some s
  | _ => none

/-- Tag::as_list. -/
def Tag.as_list : Tag → Option (List Tag)
  | .list l => some l
  | _ => none

/-- Tag::as_i64_vec. -/
def Tag.as_i64_vec : Tag → Option (List Int)
  | .longArray v => some v
  | _ => none

/-- Reading one byte from the cursor; empty stream is the io EOF error. -/
def readU8 : Bytes → Except RErr (Nat × Bytes)
  | [] => .error .ioError
  | b :: rest => .ok (b, rest)

/-- read_exact of n bytes. -/
def readN : Nat → Bytes → Except RErr (Bytes × Bytes)
  | 0, bs => .ok ([], bs)
  | _ + 1, [] => .error .ioError
  | n + 1, b :: rest =>
    match readN n rest with
    | .ok (xs, rem) => .ok (b :: xs, rem)
    | .error e => .error e

/-- Big-endian value of a byte list. -/
def beVal (bs : Bytes) : Nat :=
  bs.foldl (fun acc b => acc * 256 + b) 0

/-- Two-complement reinterpretation of a w-bit unsigned value. -/
def toSigned (w v : Nat) : Int :=
  if v < 2 ^ (w - 1) then (v : Int) else (v : Int) - 2 ^ w

/-- read_u16 big-endian. -/
def readU16 (bs : Bytes) : Except RErr (Nat × Bytes) :=
  (readN 2 bs).map (fun p => (beVal p.1, p.2))

/-- read_i8. -/
def readInt8 (bs : Bytes) : Except RErr (Int × Bytes) :=
  (readN 1 bs).map (fun p => (toSigned 8 (beVal p.1), p.2))

/-- read_i16 big-endian. -/
def readInt16 (bs : Bytes) : Except RErr (Int × Bytes) :=
  (readN 2 bs).map (fun p => (toSigned 16 (beVal p.1), p.2))

/-- read_i32 big-endian. -/
def readInt32 (bs : Bytes) : Except RErr (Int × Bytes) :=
  (readN 4 bs).map (fun p => (toSigned 32 (beVal p.1), p.2))

/-- read_i64 big-endian. -/
def readInt64 (bs : Bytes) : Except RErr (Int × Bytes) :=
  (readN 8 bs).map (fun p => (toSigned 64 (beVal p.1), p.2))

/-- read_f32 big-endian, kept as raw bits. -/
def readF32bits (bs : Bytes) : Except RErr (Nat × Bytes) :=
  (readN 4 bs).map (fun p => (beVal p.1, p.2))

/-- read_f64 big-endian, kept as raw bits. -/
def readF64bits (bs : Bytes) : Except RErr (Nat × Bytes) :=
  (readN 8 bs).map (fun p => (beVal p.1, p.2))

/-- Strict UTF-8 decoding as performed by String::from_utf8: rejects stray or
missing continuation bytes, overlong encodings, surrogates, and code points
beyond 0x10FFFF. -/
def utf8Chars : Bytes → Option (List Char)
  | [] => some []
  | b :: rest =>
    if b < 0x80 then (utf8Chars rest).map (Char.ofNat b :: ·)
    else if 0xC2 ≤ b ∧ b ≤ 0xDF then
      match rest with
      | c1 :: rest2 =>
        if 0x80 ≤ c1 ∧ c1 ≤ 0xBF then
          (utf8Chars rest2).map (Char.ofNat ((b - 0xC0) * 64 + (c1 - 0x80)) :: ·)
        else none
      | [] => none
    else if 0xE0 ≤ b ∧ b ≤ 0xEF then
      match rest with
      | c1 :: c2 :: rest2 =>
        let lo1 := if b = 0xE0 then 0xA0 else 0x80
        let hi1 := if b = 0xED then 0x9F else 0xBF
        if lo1 ≤ c1 ∧ c1 ≤ hi1 ∧ 0x80 ≤ c2 ∧ c2 ≤ 0xBF then
          (utf8Chars rest2).map
            (Char.ofNat ((b - 0xE0) * 4096 + (c1 - 0x80) * 64 + (c2 - 0x80)) :: ·)
        else none
      | _ => none
    else if 0xF0 ≤ b ∧ b ≤ 0xF4 then
      match rest with
      | c1 :: c2 :: c3 :: rest2 =>
        let lo1 := if b = 0xF0 then 0x90 else 0x80
        let hi1 := if b = 0xF4 then 0x8F else 0xBF
        if lo1 ≤ c1 ∧ c1 ≤ hi1 ∧ 0x80 ≤ c2 ∧ c2 ≤ 0xBF ∧ 0x80 ≤ c3 ∧ c3 ≤ 0xBF then
          (utf8Chars rest2).map
            (Char.ofNat ((b - 0xF0) * 262144 + (c1 - 0x80) * 4096 +
              (c2 - 0x80) * 64 + (c3 - 0x80)) :: ·)
        else none
      | _ => none
    else none

/-- Decode a byte list to a String; none models a from_utf8 failure, which the
parser turns into a panic through expect. -/
def utf8ToString (bs : Bytes) : Option String :=
  (utf8Chars bs).map String.mk

/-- nbt.rs read_name: u16 length, then that many UTF-8 bytes; invalid UTF-8
is the expect panic. -/
def readName (bs : Bytes) : Except RErr (String × Bytes) :=
  match readU16 bs with
  | .error e => .error e
  | .ok (len, bs1) =>
    match readN len bs1 with
    | .error e => .error e
    | .ok (raw, bs2) =>
      match utf8ToString raw with
      | some s => .ok (s, bs2)
      | none => .error .fatal

/-- Repeat a reader a fixed number of times (the for loops of the array
readers). -/
def readRep {α : Type} (reader : Bytes → Except RErr (α × Bytes)) :
    Nat → Bytes → Except RErr (List α × Bytes)
  | 0, bs => .ok ([], bs)
  | n + 1, bs =>
    match reader bs with
    | .error e => .error e
    | .ok (x, bs1) =>
      match readRep reader n bs1 with
      | .error e => .error e
      | .ok (xs, bs2) => .ok (x :: xs, bs2)

mutual

/-- nbt.rs NBTParser::read_id, with structural fuel. An unknown tag id is the
panic at nbt.rs line 152. The array readers allocate vec![0; length as usize],
which aborts for a negative length reinterpreted as usize. -/
def readId : Nat → Nat → Bytes → Except RErr (Tag × Bytes)
  | 0, _, _ => .error .fuelOut
  | fuel + 1, id, bs =>
    match id with
    | 1 => (readInt8 bs).map (fun p => (Tag.byte p.1, p.2))
    | 2 => (readInt16 bs).map (fun p => (Tag.short p.1, p.2))
    | 3 => (readInt32 bs).map (fun p => (Tag.int p.1, p.2))
    | 4 => (readInt64 bs).map (fun p => (Tag.long p.1, p.2))
    | 5 => (readF32bits bs).map (fun p => (Tag.float p.1, p.2))
    | 6 => (readF64bits bs).map (fun p => (Tag.double p.1, p.2))
    | 7 =>
      match readInt32 bs with
      | .error e => .error e
      | .ok (len, bs1) =>
        if len < 0 then .error .fatal
        else (readRep readInt8 len.toNat bs1).map (fun p => (Tag.byteArray p.1, p.2))
    | 8 =>
      match readU16 bs with
      | .error e => .error e
      | .ok (len, bs1) =>
        match readN len bs1 with
        | .error e => .error e
        | .ok (raw, bs2) =>
          match utf8ToString raw with
          | some s => .ok (Tag.string s, bs2)
          | none => .error .fatal
    | 9 =>
      match readU8 bs with
      | .error e => .error e
      | .ok (elemId, bs1) =>
        match readInt32 bs1 with
        | .error e => .error e
        | .ok (len, bs2) =>
          (readListBody fuel elemId len.toNat bs2).map (fun p => (Tag.list p.1, p.2))
    | 10 => readCompoundLoop fuel [] bs
    | 11 =>
      match readInt32 bs with
      | .error e => .error e
      | .ok (len, bs1) =>
        if len < 0 then .error .fatal
        else (readRep readInt32 len.toNat bs1).map (fun p => (Tag.intArray p.1, p.2))
    | 12 =>
      match readInt32 bs with
      | .error e => .error e
      | .ok (len, bs1) =>
        if len < 0 then .error .fatal
        else (readRep readInt64 len.toNat bs1).map (fun p => (Tag.longArray p.1, p.2))
    | _ => .error .fatal

/-- The body loop of nbt.rs read_list: count unnamed bodies of the element id
(a negative i32 count iterates zero times and arrives here as zero). -/
def readListBody : Nat → Nat → Nat → Bytes → Except RErr (List Tag × Bytes)
  | 0, _, _, _ => .error .fuelOut
  | _ + 1, _, 0, bs => .ok ([], bs)
  | fuel + 1, elemId, n + 1, bs =>
    match readId fuel elemId bs with
    | .error e => .error e
    | .ok (tag, bs1) =>
      match readListBody fuel elemId n bs1 with
      | .error e => .error e
      | .ok (tags, bs2) => .ok (tag :: tags, bs2)

/-- The while-let loop of nbt.rs read_compound: EOF on the tag byte ends the
compound gracefully; a zero tag id is the compound terminator; otherwise a
named tag is read and inserted. -/
def readCompoundLoop : Nat → Compound → Bytes → Except RErr (Tag × Bytes)
  | 0, _, _ => .error .fuelOut
  | _ + 1, acc, [] => .ok (Tag.compound acc, [])
  | fuel + 1, acc, b :: bs =>
    if b = 0 then .ok (Tag.compound acc, bs)
    else
      match readName bs with
      | .error e => .error e
      | .ok (name, bs1) =>
        match readId fuel b bs1 with
        | .error e => .error e
        | .ok (tag, bs2) => readCompoundLoop fuel (insertA acc name tag) bs2

end

/-- nbt.rs NBTParser::read_compound, the entry point used on a chunk payload. -/
def read_compound (fuel : Nat) (bs : Bytes) : Except RErr (Tag × Bytes) :=
  readCompoundLoop fuel [] bs

/-! ## Region, chunk and block-state decoding (map.rs) -/

/-- One iteration of the read_bits loop: test bit (start+j) of the byte
stream (indexing past the buffer is the slice panic) and add 2^j when set
(2u32.pow overflows and panics for j at 32 or above in debug builds). -/
def readBitsStep (bytes : Bytes) (start number j : Nat) : Except RErr Nat :=
  match bytes[(start + j) / 8]? with
  | none => .error .fatal
  | some byte =>
    if byte &&& (1 <<< ((start + j) % 8)) ≠ 0 then
      if 32 ≤ j then .error .fatal else .ok (number + 2 ^ j)
    else .ok number

/-- map.rs read_bits: the number whose bit j is bit (start+j) of the byte
stream, least-significant bit first within each byte. -/
def read_bits (bytes : Bytes) (start n : Nat) : Except RErr Nat :=
  (List.range n).foldlM (readBitsStep bytes start) 0

/-- map.rs ChunkSection. -/
structure ChunkSection where
  names : List String
  properties : List String
  graphic_props : List String
  indexes : List Nat
deriving DecidableEq

/-- The GraphPropsMap of map.rs: block name to the map from property key to
its canonical position. -/
abbrev GraphPropsMap := List (String × List (String × Nat))

/-- Rust String::pop: remove the last character (no-op on the empty string). -/
def strPop (s : String) : String :=
  String.mk s.toList.dropLast

/-- The body of the Properties for-loop in ChunkSection::new (map.rs lines
143-159), acting on the (prop_list, graphic_list) accumulator: panics when the
value is not a string, appends key=value to prop_list with no separator, and
writes key=value into the graphic slot at the canonical index when the key is
graphical (an out-of-range canonical index is the vector indexing panic). -/
def propStep (graphics : List (String × Nat)) (acc : String × List String)
    (kv : String × Tag) : Except RErr (String × List String) :=
  match kv.2.as_string with
  | none => Except.error RErr.fatal
  | some v =>
    let text := kv.1 ++ "=" ++ v
    match lookupA graphics kv.1 with
    | some index =>
      if index < acc.2.length then
        Except.ok (acc.1 ++ text, acc.2.set index text)
      else Except.error RErr.fatal
    | none => Except.ok (acc.1 ++ text, acc.2)

/-- The per-palette-entry body of ChunkSection::new (map.rs lines 124-173):
produces (name, properties, graphic_props) for one palette block. The Name
and graphic-set lookups panic when missing. The properties accumulator gets
one trailing character popped at the end; the graphic slots are each suffixed
with a comma before the final pop. -/
def paletteEntry (graphic_set : GraphPropsMap) (block : Compound) :
    Except RErr (String × String × String) :=
  match lookupA block "Name" with
  | none => .error .fatal
  | some nameTag =>
    match nameTag.as_string with
    | none => .error .fatal
    | some name =>
      match lookupA graphic_set name with
      | none => .error .fatal
      | some graphics =>
        let start : String × List String := ("", List.replicate graphics.length "")
        let withProps : Except RErr (String × List String) :=
          match lookupA block "Properties" with
          | some propsTag =>
            match propsTag.as_compound with
            | none => .error .fatal
            | some block_properties =>
              match block_properties.foldlM (propStep graphics) start with
              | .error e => .error e
              | .ok (prop_list, graphic_list) => .ok (strPop prop_list, graphic_list)
          | none => .ok start
        match withProps with
        | .error e => .error e
        | .ok (prop_list, graphic_list) =>
          .ok (name, prop_list,
            strPop (String.join (graphic_list.map (fun x => x ++ ","))))

/-- LittleEndian::write_i64: the eight little-endian bytes of an i64. -/
def i64ToLEBytes (v : Int) : Bytes :=
  (List.range 8).map (fun k => ((v % (2 : Int) ^ 64).toNat >>> (8 * k)) &&& 255)

/-- The tail of ChunkSection::new (map.rs lines 202-216): the palette
invariant assert followed by reading Y. The assert compares the maximum index
with names.len() - 1 and panics on mismatch (including the empty-palette
underflow); the Y lookup panics when missing or not a byte. -/
def finishSection (names properties graphic_props : List String) (indexes : List Nat)
    (sect : Compound) : Except RErr (ChunkSection × Int) :=
  let checked : Except RErr Unit :=
    match indexes.max? with
    | some m =>
      if names.length = 0 then .error .fatal
      else if m = names.length - 1 then .ok ()
      else .error .fatal
    | none => .ok ()
  match checked with
  | .error e => .error e
  | .ok _ =>
    match lookupA sect "Y" with
    | none => .error .fatal
    | some yTag =>
      match yTag.as_i8 with
      | none => .error .fatal
      | some y => .ok (⟨names, properties, graphic_props, indexes⟩, y)

/-- One palette element of ChunkSection::new: it must be a compound (expect
panic otherwise) and is then normalized by paletteEntry. -/
def paletteBlock (graphic_set : GraphPropsMap) (block : Tag) :
    Except RErr (String × String × String) :=
  match block.as_compound with
  | none => Except.error RErr.fatal
  | some bc => paletteEntry graphic_set bc

/-- The BlockStates unpacking of ChunkSection::new (map.rs lines 181-199):
reinterpret the long array as little-endian bytes, derive the bits per entry
as max(len*8/4096, 4) and read the 4096 packed indices. -/
def readIndexes (statesI : List Int) : Except RErr (List Nat) :=
  let states := statesI.flatMap i64ToLEBytes
  let block_bits := max (states.length * 8 / 4096) 4
  (List.range 4096).mapM (fun i => read_bits states (i * block_bits) block_bits)

/-- map.rs ChunkSection::new: normalize every palette entry, unpack the 4096
indices from BlockStates, check the palette invariant and read Y. Without a
Palette field everything stays empty. -/
def ChunkSection.new (sect : Compound) (graphic_set : GraphPropsMap) :
    Except RErr (ChunkSection × Int) :=
  match lookupA sect "Palette" with
  | some paletteTag =>
    match paletteTag.as_list with
    | none => .error .fatal
    | some palette =>
      match palette.mapM (paletteBlock graphic_set) with
      | .error e => .error e
      | .ok entries =>
        match lookupA sect "BlockStates" with
        | none => .error .fatal
        | some statesTag =>
          match statesTag.as_i64_vec with
          | none => .error .fatal
          | some statesI =>
            match readIndexes statesI with
            | .error e => .error e
            | .ok indexes =>
              finishSection (entries.map (·.1)) (entries.map (·.2.1))
                (entries.map (·.2.2)) indexes sect
  | none => finishSection [] [] [] [] sect

/-- map.rs ChunkSection::get_index with CHUNK_SIZE = 16. -/
def sectionIndex (x y z : Nat) : Nat :=
  y * 16 * 16 + z * 16 + x

/-- ChunkSection::get_block (vector indexing modelled totally with defaults;
all uses in the claims are within bounds). -/
def ChunkSection.get_block (s : ChunkSection) (x y z : Nat) : String :=
  s.names.getD (s.indexes.getD (sectionIndex x y z) 0) ""

/-- ChunkSection::get_prop. -/
def ChunkSection.get_prop (s : ChunkSection) (x y z : Nat) : String :=
  s.properties.getD (s.indexes.getD (sectionIndex x y z) 0) ""

/-- ChunkSection::get_gprop. -/
def ChunkSection.get_gprop (s : ChunkSection) (x y z : Nat) : String :=
  s.graphic_props.getD (s.indexes.getD (sectionIndex x y z) 0) ""

/-- map.rs Chunk: sixteen optional sections. -/
structure Chunk where
  sections : List (Option ChunkSection)
deriving DecidableEq

/-- The usize value of an i8 after the as-cast (two-complement wrap into the
64-bit unsigned range). -/
def i8AsUsize (y : Int) : Nat :=
  (y % (2 : Int) ^ 64).toNat

/-- The loop body of Chunk::new (map.rs lines 254-264): decode one Sections element,
skip it when Y is -1 or the palette names are empty, otherwise store it at
slot Y; storing at an index not below the slot-vector length is the vector
indexing panic. -/
def chunkNewStep (graphic_set : GraphPropsMap) (slots : List (Option ChunkSection))
    (section_nbt : Tag) : Except RErr (List (Option ChunkSection)) :=
  match section_nbt.as_compound with
  | none => .error .fatal
  | some sc =>
    match ChunkSection.new sc graphic_set with
    | .error e => .error e
    | .ok (sect, y) =>
      if y ≠ -1 ∧ sect.names ≠ [] then
        if i8AsUsize y < slots.length then .ok (slots.set (i8AsUsize y) (some sect))
        else .error .fatal
      else .ok slots

/-- map.rs Chunk::new. -/
def Chunk.new (chunk_nbt : Compound) (graphic_set : GraphPropsMap) : Except RErr Chunk :=
  match lookupA chunk_nbt "Sections" with
  | none => .error .fatal
  | some sectionsTag =>
    match sectionsTag.as_list with
    | none => .error .fatal
    | some sections_nbt =>
      match sections_nbt.foldlM (chunkNewStep graphic_set)
          ((List.range 16).map (fun _ => none)) with
      | .error e => .error e
      | .ok slots => .ok ⟨slots⟩

/-- Chunk::get_block with SECTION_SIZE = 16: a missing slot yields
minecraft:air. -/
def Chunk.get_block (c : Chunk) (x y z : Nat) : String :=
  match c.sections.getD (y / 16) none with
  | some sect => sect.get_block x (y % 16) z
  | none => "minecraft:air"

/-- Chunk::get_prop: a missing slot yields the empty string. -/
def Chunk.get_prop (c : Chunk) (x y z : Nat) : String :=
  match c.sections.getD (y / 16) none with
  | some sect => sect.get_prop x (y % 16) z
  | none => ""

/-- Chunk::get_gprop: a missing slot yields the empty string. -/
def Chunk.get_gprop (c : Chunk) (x y z : Nat) : String :=
  match c.sections.getD (y / 16) none with
  | some sect => sect.get_gprop x (y % 16) z
  | none => ""

/-- map.rs Region: 32 by 32 optional chunks. -/
structure Region where
  chunks : List (Option Chunk)
deriving DecidableEq

/-- Region::get_index with CHUNK_SIZE = 16, REGION_SIZE = 32. -/
def Region.get_index (x z : Nat) : Nat :=
  (z / 16) * 32 + x / 16

/-- Region::get_block: a missing chunk yields minecraft:air. -/
def Region.get_block (r : Region) (x y z : Nat) : String :=
  match r.chunks.getD (Region.get_index x z) none with
  | some chunk => chunk.get_block (x % 16) y (z % 16)
  | none => "minecraft:air"

/-- Region::get_prop: a missing chunk yields the empty string. -/
def Region.get_prop (r : Region) (x y z : Nat) : String :=
  match r.chunks.getD (Region.get_index x z) none with
  | some chunk => chunk.get_prop (x % 16) y (z % 16)
  | none => ""

/-- Region::get_gprop: a missing chunk yields the empty string. -/
def Region.get_gprop (r : Region) (x y z : Nat) : String :=
  match r.chunks.getD (Region.get_index x z) none with
  | some chunk => chunk.get_gprop (x % 16) y (z % 16)
  | none => ""

/-- One header slot of a region file as Region::from_file sees it: a (0,0)
header entry, a failed read_chunk call (seek, read or decompression error),
or the decompressed chunk bytes. -/
inductive Slot where
  | absent
  | readErr
  | okBytes (bytes : Bytes)

/-- The per-chunk decoding of map.rs from_file lines 324-336: parse the NBT,
then descend through the empty-named root member and Level (each indexing or
as_compound failure panics through expect), then build the chunk. The parse
error is returned as is, modelling the question-mark propagation out of
from_file. -/
def decodeChunkBytes (fuel : Nat) (graphic_set : GraphPropsMap) (bytes : Bytes) :
    Except RErr Chunk :=
  match read_compound fuel bytes with
  | .error e => .error e
  | .ok (tags, _) =>
    match tags.as_compound with
    | none => .error .fatal
    | some comp =>
      match lookupA comp "" with
      | none => .error .fatal
      | some t1 =>
        match t1.as_compound with
        | none => .error .fatal
        | some c1 =>
          match lookupA c1 "Level" with
          | none => .error .fatal
          | some lvl =>
            match lvl.as_compound with
            | none => .error .fatal
            | some level => Chunk.new level graphic_set

/-- map.rs Region::from_file over the header slots (the file reading itself is
abstracted into the Slot values): an absent slot or a failed read_chunk pushes
None, successful bytes are decoded — and any decode error is propagated,
aborting the whole region. -/
def Region.from_file (fuel : Nat) (graphic_set : GraphPropsMap) :
    List Slot → Except RErr (List (Option Chunk))
  | [] => .ok []
  | .absent :: rest => (Region.from_file fuel graphic_set rest).map (none :: ·)
  | .readErr :: rest => (Region.from_file fuel graphic_set rest).map (none :: ·)
  | .okBytes bytes :: rest =>
    match decodeChunkBytes fuel graphic_set bytes with
    | .error e => .error e
    | .ok chunk => (Region.from_file fuel graphic_set rest).map (some chunk :: ·)

/-! ## Renderer (renderer.rs) -/

/-- One texel of renderer.rs overlay: paint only where the destination alpha
is zero. -/
def overlayCell (top : Image) (x y dx : Nat) (img2 : Image) (dy : Nat) : Image :=
  if (img2.pix (x + dx) (y + dy)).a = 0 then
    img2.put (x + dx) (y + dy) (top.pix dx dy)
  else img2

/-- The inner dy loop of overlay. -/
def overlayCol (top : Image) (x y : Nat) (img1 : Image) (dx : Nat) : Image :=
  (List.range top.height).foldl (overlayCell top x y dx) img1

/-- renderer.rs overlay: scan the top texture column-major (dx outer, dy
inner) and copy a source texel onto the destination only where the
destination alpha is zero. -/
def overlay (bottom top : Image) (x y : Nat) : Image :=
  (List.range top.width).foldl (overlayCol top x y) bottom

/-- Modelled from the spec: TextureLoader::index is called by renderer.rs but
is not defined in the sources under src/; per the spec it is a read-only
lookup of the cache map that never inserts, returning the cached handle when
one exists. -/
def TextureLoader.index (st : TextureLoader) (name properties : String) : Option Nat :=
  (lookupA st.textures_map (name, properties)).bind id

/-- The index-then-load pattern of renderer.rs lines 73-80: try the read-only
index, fall back to load on a miss. -/
def resolveTexture (res : Resources) (st : TextureLoader) (name properties : String) :
    Except RErr (Option Nat × TextureLoader) :=
  match st.index name properties with
  | some index => .ok (some index, st)
  | none => st.load res name properties

/-- The y column loop of renderer.rs image_chunk_textures (lines 68-93): the
first argument is one plus the next height to inspect, so 256 scans heights
255 down to 0. Ignored blocks are skipped without touching the cache; an
unresolved block continues downward; a resolved texture is overlaid at
(x*16, z*16), and the walk ends there when the texture is not transparent. -/
def renderColumn (res : Resources) (region : Region) (ignore : List String) (x z : Nat) :
    Nat → Image → TextureLoader → Except RErr (Image × TextureLoader)
  | 0, img, st => .ok (img, st)
  | y + 1, img, st =>
    if region.get_block x y z ∈ ignore then renderColumn res region ignore x z y img st
    else
      match resolveTexture res st (region.get_block x y z) (region.get_gprop x y z) with
      | .error e => .error e
      | .ok (none, st2) => renderColumn res region ignore x z y img st2
      | .ok (some index, st2) =>
        match st2.textures[index]? with
        | none => .error .fatal
        | some t =>
          let img2 := overlay img t.1 (x * 16) (z * 16)
          if t.2.1 = false then .ok (img2, st2)
          else renderColumn res region ignore x z y img2 st2

/-- renderer.rs image_chunk_textures: an 8192 by 8192 zeroed RGBA buffer,
filled by walking every column (x outer, z inner). -/
def image_chunk_textures (res : Resources) (region : Region) (ignore : List String)
    (st : TextureLoader) : Except RErr (Image × TextureLoader) :=
  (List.range 512).foldlM
    (fun acc x =>
      (List.range 512).foldlM
        (fun (acc2 : Image × TextureLoader) z =>
          renderColumn res region ignore x z 256 acc2.1 acc2.2)
        acc)
    (⟨8192, 8192, fun _ _ => ⟨0, 0, 0, 0⟩⟩, st)

/-! ## Specification-side definitions

These definitions follow the words of the spec, not the code; the theorems
compare the code embeddings above against them. -/

/-- The value of a list of bits, least significant first. -/
def ofBitsList : List Bool → Nat
  | [] => 0
  | b :: rest => (if b then 1 else 0) + 2 * ofBitsList rest

/-- Modelled from the spec: the packed bit stream of the section indices,
each value contributing its low b bits, least-significant bit first. -/
def streamBits (vals : List Nat) (b : Nat) : List Bool :=
  vals.flatMap (fun v => (List.range b).map (fun j => v.testBit j))

/-- Modelled from the spec: re-pack index values into b bits per entry and
serialize the bit stream into bytes, least-significant bit first within each
byte (the inverse direction of read_bits, which the repository does not
contain). -/
def packBits (vals : List Nat) (b : Nat) : Bytes :=
  (List.range ((vals.length * b + 7) / 8)).map
    (fun i => ofBitsList ((List.range 8).map (fun k => (streamBits vals b).getD (8 * i + k) false)))

/-- Spec-side count of pixels with non-zero alpha. -/
def alphaCount (img : Image) : Nat :=
  (img.pixels.filter (fun p => p.a ≠ 0)).length

/-- Spec-side channel sums over pixels with non-zero alpha. -/
def alphaSums (img : Image) : Nat × Nat × Nat :=
  ((img.pixels.filter (fun p => p.a ≠ 0)).foldl (fun acc p => acc + p.r) 0,
   (img.pixels.filter (fun p => p.a ≠ 0)).foldl (fun acc p => acc + p.g) 0,
   (img.pixels.filter (fun p => p.a ≠ 0)).foldl (fun acc p => acc + p.b) 0)

/-- Spec-side exact mean of the claim: each channel sum divided by the count
of non-zero-alpha pixels (Nat division makes the empty case zero). -/
def meanSpec (img : Image) : Nat × Nat × Nat :=
  ((alphaSums img).1 / alphaCount img,
   (alphaSums img).2.1 / alphaCount img,
   (alphaSums img).2.2 / alphaCount img)

/-- Spec-side canonical slot content for C6: slot j holds key=value for the
Properties entry whose key sits at canonical position j, or the empty string. -/
def gpropSlotSpec (graphics : List (String × Nat)) (bprops : List (String × String))
    (j : Nat) : String :=
  match bprops.find? (fun kv => lookupA graphics kv.1 = some j) with
  | some kv => kv.1 ++ "=" ++ kv.2
  | none => ""

/-- Spec-side comma join: slots joined by commas, only the final separator
trimmed (equivalently, no trailing separator at all). -/
def joinCommas : List String → String
  | [] => ""
  | [x] => x
  | x :: y :: rest => x ++ "," ++ joinCommas (y :: rest)

/-- Spec-side graphic-properties string for C6: canonical slots joined by
commas with only the final separator trimmed. -/
def gpropsSpec (graphics : List (String × Nat)) (bprops : List (String × String)) : String :=
  joinCommas ((List.range graphics.length).map (gpropSlotSpec graphics bprops))

/-! ## Helper lemmas -/

theorem lookupA_insertA_self {α β : Type} [DecidableEq α] (m : List (α × β)) (k : α) (v : β) :
    lookupA (insertA m k v) k = some v := by
  induction m with
  | nil => simp [insertA, lookupA]
  | cons kv rest ih =>
    obtain ⟨k1, v1⟩ := kv
    by_cases hk : k1 = k
    · simp [insertA, hk, lookupA]
    · simp [insertA, hk, lookupA, ih]

theorem foldlM_const_ok {α β : Type} (f : β → α → Except RErr β) (l : List α)
    (h : ∀ b a, a ∈ l → f b a = .ok b) (b : β) : l.foldlM f b = .ok b := by
  induction l generalizing b with
  | nil => rfl
  | cons x xs ih =>
    rw [List.foldlM_cons, h b x (List.mem_cons_self x xs)]
    exact ih (fun b a ha => h b a (List.mem_cons_of_mem x ha)) b

theorem mapM_ok_of_all {α β : Type} (f : α → Except RErr β) (g : α → β) (l : List α)
    (h : ∀ a ∈ l, f a = .ok (g a)) : l.mapM f = .ok (l.map g) := by
  induction l with
  | nil => rfl
  | cons a rest ih =>
    have ha : f a = .ok (g a) := h a (List.mem_cons_self a rest)
    have hr : rest.mapM f = .ok (rest.map g) :=
      ih (fun b hb => h b (List.mem_cons_of_mem a hb))
    rw [List.mapM_cons, ha, hr]
    rfl

theorem mapM_const_ok {α : Type} (f : Nat → Except RErr α) (n : Nat) (c : α)
    (h : ∀ i < n, f i = .ok c) : (List.range n).mapM f = .ok (List.replicate n c) := by
  have := mapM_ok_of_all f (fun _ => c) (List.range n)
    (fun a ha => h a (List.mem_range.mp ha))
  simpa [List.map_const] using this

/-- Per-channel sum over pixels with non-zero alpha, list level. -/
def sumBy (f : Pixel → Nat) (l : List Pixel) : Nat :=
  (l.filter (fun p => p.a ≠ 0)).foldl (fun s p => s + f p) 0

/-- Count of pixels with non-zero alpha, list level. -/
def cntA (l : List Pixel) : Nat :=
  (l.filter (fun p => p.a ≠ 0)).length

theorem foldl_add_shift (f : Pixel → Nat) (l : List Pixel) (x : Nat) :
    l.foldl (fun s p => s + f p) x = x + l.foldl (fun s p => s + f p) 0 := by
  induction l generalizing x with
  | nil => simp
  | cons p rest ih =>
    simp only [List.foldl_cons]
    rw [ih (x + f p), ih (0 + f p)]
    omega

theorem sumBy_cons_pos (f : Pixel → Nat) (p : Pixel) (l : List Pixel) (hp : p.a ≠ 0) :
    sumBy f (p :: l) = f p + sumBy f l := by
  unfold sumBy
  rw [List.filter_cons_of_pos (by simpa using hp), List.foldl_cons, foldl_add_shift]
  omega

theorem sumBy_cons_neg (f : Pixel → Nat) (p : Pixel) (l : List Pixel) (hp : ¬ p.a ≠ 0) :
    sumBy f (p :: l) = sumBy f l := by
  unfold sumBy
  rw [List.filter_cons_of_neg (by simpa using hp)]

theorem cntA_cons_pos (p : Pixel) (l : List Pixel) (hp : p.a ≠ 0) :
    cntA (p :: l) = cntA l + 1 := by
  unfold cntA
  rw [List.filter_cons_of_pos (by simpa using hp)]
  simp [Nat.add_comm]

theorem cntA_cons_neg (p : Pixel) (l : List Pixel) (hp : ¬ p.a ≠ 0) :
    cntA (p :: l) = cntA l := by
  unfold cntA
  rw [List.filter_cons_of_neg (by simpa using hp)]

theorem avg_fold_general (l : List Pixel) (a b c n : Nat) :
    l.foldl
      (fun (acc : Nat × Nat × Nat × Nat) p =>
        if p.a ≠ 0 then (acc.1 + p.r, acc.2.1 + p.g, acc.2.2.1 + p.b, acc.2.2.2 + 1)
        else acc)
      (a, b, c, n)
    = (a + sumBy Pixel.r l, b + sumBy Pixel.g l, c + sumBy Pixel.b l, n + cntA l) := by
  induction l generalizing a b c n with
  | nil => simp [sumBy, cntA]
  | cons p rest ih =>
    by_cases hp : p.a ≠ 0
    · simp only [List.foldl_cons, if_pos hp, ih,
        sumBy_cons_pos _ _ _ hp, cntA_cons_pos _ _ hp]
      simp [Prod.ext_iff]
      omega
    · simp only [List.foldl_cons, if_neg hp, ih,
        sumBy_cons_neg _ _ _ hp, cntA_cons_neg _ _ hp]

theorem sumBy_le (f : Pixel → Nat) (l : List Pixel) (h : ∀ p ∈ l, f p ≤ 255) :
    sumBy f l ≤ 255 * cntA l := by
  induction l with
  | nil => simp [sumBy, cntA]
  | cons p rest ih =>
    have hrest : sumBy f rest ≤ 255 * cntA rest :=
      ih (fun q hq => h q (List.mem_cons_of_mem p hq))
    have hpv : f p ≤ 255 := h p (List.mem_cons_self p rest)
    by_cases hp : p.a ≠ 0
    · rw [sumBy_cons_pos _ _ _ hp, cntA_cons_pos _ _ hp]
      omega
    · rw [sumBy_cons_neg _ _ _ hp, cntA_cons_neg _ _ hp]
      exact hrest

/-! ## Claim theorems -/

/-- C4 counterexample input: every pixel fully opaque pure red. -/
def imgRed : Image := ⟨16, 16, fun _ _ => ⟨255, 0, 0, 255⟩⟩

/-- C4, counterexample: on a 16 by 16 fully opaque red texture the recorded
average is (254,0,0), not the exact integer mean (255,0,0) claimed (the
divisor starts at 1, so the code divides by the opaque-pixel count plus one). -/
theorem c4_counterexample : image_avg imgRed ≠ meanSpec imgRed := by decide

/-- C4, amended: for a 16 by 16 RGBA texture with byte channels, average_color
is each channel sum over non-zero-alpha pixels divided by (count + 1), which
in particular is (0,0,0) when no pixel has non-zero alpha. -/
theorem c4_avg_div_succ (img : Image) (hw : img.width = 16) (hh : img.height = 16)
    (hch : ∀ p ∈ img.pixels, p.r ≤ 255 ∧ p.g ≤ 255 ∧ p.b ≤ 255) :
    image_avg img =
      ((alphaSums img).1 / (alphaCount img + 1),
       (alphaSums img).2.1 / (alphaCount img + 1),
       (alphaSums img).2.2 / (alphaCount img + 1)) := by
  have hsR : sumBy Pixel.r img.pixels ≤ 255 * cntA img.pixels :=
    sumBy_le _ _ (fun p hp => (hch p hp).1)
  have hsG : sumBy Pixel.g img.pixels ≤ 255 * cntA img.pixels :=
    sumBy_le _ _ (fun p hp => (hch p hp).2.1)
  have hsB : sumBy Pixel.b img.pixels ≤ 255 * cntA img.pixels :=
    sumBy_le _ _ (fun p hp => (hch p hp).2.2)
  have hqR : sumBy Pixel.r img.pixels / (cntA img.pixels + 1) < 256 := by
    rw [Nat.div_lt_iff_lt_mul (Nat.succ_pos _)]
    omega
  have hqG : sumBy Pixel.g img.pixels / (cntA img.pixels + 1) < 256 := by
    rw [Nat.div_lt_iff_lt_mul (Nat.succ_pos _)]
    omega
  have hqB : sumBy Pixel.b img.pixels / (cntA img.pixels + 1) < 256 := by
    rw [Nat.div_lt_iff_lt_mul (Nat.succ_pos _)]
    omega
  have hfold := avg_fold_general img.pixels 0 0 0 1
  have hsums : alphaSums img =
      (sumBy Pixel.r img.pixels, sumBy Pixel.g img.pixels, sumBy Pixel.b img.pixels) := rfl
  have hcnt : alphaCount img = cntA img.pixels := rfl
  unfold image_avg
  rw [hfold, hsums, hcnt]
  simp only [Nat.zero_add]
  rw [Nat.add_comm 1 (cntA img.pixels)]
  rw [Nat.mod_eq_of_lt hqR, Nat.mod_eq_of_lt hqG, Nat.mod_eq_of_lt hqB]

/-- C4 witness: the amended statement evaluated on the opaque red texture. -/
theorem c4_witness :
    image_avg imgRed =
      ((alphaSums imgRed).1 / (alphaCount imgRed + 1),
       (alphaSums imgRed).2.1 / (alphaCount imgRed + 1),
       (alphaSums imgRed).2.2 / (alphaCount imgRed + 1)) :=
  c4_avg_div_succ imgRed rfl rfl (by decide)

/-- C8: for in-range coordinates, a missing chunk slot or a missing section
slot makes the three Region lookups return the sentinels minecraft:air, the
empty string and the empty string. -/
theorem c8_missing_sentinels (r : Region) (x y z : Nat)
    (hlen : r.chunks.length = 1024) (hx : x < 512) (hy : y < 256) (hz : z < 512) :
    (r.chunks.getD (Region.get_index x z) none = none →
      r.get_block x y z = "minecraft:air" ∧ r.get_prop x y z = "" ∧
      r.get_gprop x y z = "") ∧
    (∀ c, r.chunks.getD (Region.get_index x z) none = some c →
      c.sections.getD (y / 16) none = none →
      r.get_block x y z = "minecraft:air" ∧ r.get_prop x y z = "" ∧
      r.get_gprop x y z = "") := by
  constructor
  · intro h
    simp only [List.getD, List.get?_eq_getElem?] at h
    simp [Region.get_block, Region.get_prop, Region.get_gprop, List.getD, h]
  · intro c h hs
    simp only [List.getD, List.get?_eq_getElem?] at h hs
    simp [Region.get_block, Region.get_prop, Region.get_gprop, List.getD, h,
      Chunk.get_block, Chunk.get_prop, Chunk.get_gprop, hs]

/-- A region with all 1024 chunk slots empty. -/
def emptyRegion : Region := ⟨List.replicate 1024 none⟩

/-- C8 witness: the empty region at (0,0,0). -/
theorem c8_witness :
    Region.get_block emptyRegion 0 0 0 = "minecraft:air" ∧
    Region.get_prop emptyRegion 0 0 0 = "" ∧
    Region.get_gprop emptyRegion 0 0 0 = "" :=
  (c8_missing_sentinels emptyRegion 0 0 0 (by simp [emptyRegion]) (by decide)
    (by decide) (by decide)).1 rfl

/-- C9: once load has returned result r for a key, the key maps to r in the
lookup map, and a second load with the same key returns r with the whole
loader state unchanged (no texture appended, no map modification). -/
theorem c9_load_idempotent (res : Resources) (st st2 : TextureLoader)
    (name properties : String) (r : Option Nat)
    (h : st.load res name properties = .ok (r, st2)) :
    lookupA st2.textures_map (name, properties) = some r ∧
    st2.load res name properties = .ok (r, st2) := by
  unfold TextureLoader.load at h
  cases hl : lookupA st.textures_map (name, properties) with
  | some idx =>
    rw [hl] at h
    simp at h
    obtain ⟨rfl, rfl⟩ := h
    refine ⟨hl, ?_⟩
    unfold TextureLoader.load
    rw [hl]
  | none =>
    rw [hl] at h
    simp only at h
    cases hm : get_model res name properties with
    | error e => rw [hm] at h; simp at h
    | ok mo =>
      rw [hm] at h
      cases mo with
      | none =>
        simp at h
        obtain ⟨rfl, rfl⟩ := h
        refine ⟨lookupA_insertA_self _ _ _, ?_⟩
        unfold TextureLoader.load
        rw [show lookupA
          (insertA st.textures_map (name, properties) none) (name, properties) =
          some none from lookupA_insertA_self _ _ _]
      | some model =>
        simp only at h
        cases ht : get_texture res model with
        | error e => rw [ht] at h; simp at h
        | ok topt =>
          rw [ht] at h
          cases topt with
          | none =>
            simp at h
            obtain ⟨rfl, rfl⟩ := h
            refine ⟨lookupA_insertA_self _ _ _, ?_⟩
            unfold TextureLoader.load
            rw [show lookupA
              (insertA st.textures_map (name, properties) none) (name, properties) =
              some none from lookupA_insertA_self _ _ _]
          | some texName =>
            simp only at h
            cases htex : res.textures texName with
            | none => rw [htex] at h; simp at h
            | some opened =>
              rw [htex] at h
              simp at h
              obtain ⟨rfl, rfl⟩ := h
              refine ⟨lookupA_insertA_self _ _ _, ?_⟩
              unfold TextureLoader.load
              rw [lookupA_insertA_self]

/-- Loader state with empty cache. -/
def st0 : TextureLoader := ⟨[], [], []⟩

/-- A one-entry resource tree for the C9 witness: no variants object, so the
key is negatively cached. -/
def resNegC9 : Resources := ⟨fun _ => some (Json.obj []), fun _ => none, fun _ => none⟩

/-- C9 witness: a concrete load that negatively caches, then hits. -/
theorem c9_witness :
    lookupA (TextureLoader.textures_map ⟨[], [(("minecraft:dirt", ""), none)], []⟩)
      ("minecraft:dirt", "") = some none ∧
    TextureLoader.load resNegC9 ⟨[], [(("minecraft:dirt", ""), none)], []⟩
      "minecraft:dirt" "" = .ok (none, ⟨[], [(("minecraft:dirt", ""), none)], []⟩) :=
  c9_load_idempotent resNegC9 st0 ⟨[], [(("minecraft:dirt", ""), none)], []⟩
    "minecraft:dirt" "" none rfl

/-- C1 counterexample input: a blockstate JSON whose variants object has no
entry for the requested graphic-property string. -/
def jsonVarOther : Json :=
  Json.obj [("variants", Json.obj [("other", Json.obj [("model", Json.str "m")])])]

/-- Resources exposing jsonVarOther for every blockstate stem. -/
def resC1 : Resources := ⟨fun _ => some jsonVarOther, fun _ => none, fun _ => none⟩

/-- C1, counterexample: with a variants object that lacks the requested
graphic-property key, load panics (the loader.rs line 79 panic), it does not
cache None and return None. -/
theorem c1_counterexample : st0.load resC1 "minecraft:x" "p" = .error .fatal := by
  rfl

/-- C1, amended: when the blockstate JSON has a variants object with no entry
equal to the graphic-property string, a fresh load on that key aborts with a
fatal panic instead of caching None. -/
theorem c1_variant_missing_panics (res : Resources) (st : TextureLoader)
    (name properties : String) (json variants : Json)
    (hfresh : lookupA st.textures_map (name, properties) = none)
    (hlen : 10 ≤ name.length)
    (hbs : res.blockstates (name.drop 10) = some json)
    (hvar : json.get "variants" = some variants)
    (hmiss : variants.get properties = none) :
    st.load res name properties = .error .fatal := by
  have hm : get_model res name properties = .error .fatal := by
    unfold get_model
    rw [if_neg (by omega)]
    rw [hbs]
    simp only [hvar, hmiss]
  unfold TextureLoader.load
  rw [hfresh, hm]

/-- C1 witness: the amended behaviour on the concrete missing-variant input. -/
theorem c1_witness : st0.load resC1 "minecraft:q" "p" = .error .fatal :=
  c1_variant_missing_panics resC1 st0 "minecraft:q" "p" jsonVarOther
    (Json.obj [("other", Json.obj [("model", Json.str "m")])])
    rfl (by decide) rfl rfl rfl

/-- C2, counterexample: a region whose first slot holds one truncated NBT byte
and whose second slot is absent. The truncated chunk makes from_file return
the propagated io error instead of a region with that chunk absent. -/
theorem c2_counterexample :
    Region.from_file 9 [] [Slot.okBytes [1], Slot.absent] = .error .ioError := by
  rfl

/-- C2, amended: a failed read_chunk call (seek, read or decompression error)
only marks its own chunk absent and every slot of a successful from_file run
is decoded independently — but an NBT decode failure on one chunk aborts
from_file with that error (unknown tag ids, shape mismatches and the palette
invariant violation abort as panics the same way). -/
theorem c2_read_failure_scoped :
    (∀ (fuel : Nat) (gset : GraphPropsMap) (slots : List Slot)
        (chunks : List (Option Chunk)),
      Region.from_file fuel gset slots = .ok chunks →
      chunks.length = slots.length ∧
      (∀ i : Nat, (slots[i]? = some Slot.absent ∨ slots[i]? = some Slot.readErr) →
        chunks[i]? = some none) ∧
      (∀ (i : Nat) (bytes : Bytes), slots[i]? = some (Slot.okBytes bytes) →
        ∃ c : Chunk, chunks[i]? = some (some c) ∧
          decodeChunkBytes fuel gset bytes = .ok c)) ∧
    (∀ (fuel : Nat) (gset : GraphPropsMap) (bytes : Bytes) (rest : List Slot) (e : RErr),
      decodeChunkBytes fuel gset bytes = .error e →
      Region.from_file fuel gset (Slot.okBytes bytes :: rest) = .error e) := by
  constructor
  · intro fuel gset slots
    induction slots with
    | nil =>
      intro chunks h
      simp only [Region.from_file] at h
      obtain rfl : ([] : List (Option Chunk)) = chunks := by
        simpa using h
      refine ⟨rfl, ?_, ?_⟩ <;> intro i <;> simp
    | cons s rest ih =>
      intro chunks h
      cases s with
      | absent =>
        simp only [Region.from_file] at h
        cases hr : Region.from_file fuel gset rest with
        | error e => rw [hr] at h; simp [Except.map] at h
        | ok cs =>
          rw [hr] at h
          simp [Except.map] at h
          obtain rfl := h.symm
          obtain ⟨hlen, habs, hok⟩ := ih cs hr
          refine ⟨by simp [hlen], ?_, ?_⟩
          · intro i hi
            match i with
            | 0 => simp
            | Nat.succ j =>
              simp only [List.getElem?_cons_succ] at hi ⊢
              exact habs j hi
          · intro i bytes hi
            match i with
            | 0 => simp at hi
            | Nat.succ j =>
              simp only [List.getElem?_cons_succ] at hi ⊢
              exact hok j bytes hi
      | readErr =>
        simp only [Region.from_file] at h
        cases hr : Region.from_file fuel gset rest with
        | error e => rw [hr] at h; simp [Except.map] at h
        | ok cs =>
          rw [hr] at h
          simp [Except.map] at h
          obtain rfl := h.symm
          obtain ⟨hlen, habs, hok⟩ := ih cs hr
          refine ⟨by simp [hlen], ?_, ?_⟩
          · intro i hi
            match i with
            | 0 => simp
            | Nat.succ j =>
              simp only [List.getElem?_cons_succ] at hi ⊢
              exact habs j hi
          · intro i bytes hi
            match i with
            | 0 => simp at hi
            | Nat.succ j =>
              simp only [List.getElem?_cons_succ] at hi ⊢
              exact hok j bytes hi
      | okBytes bytes =>
        simp only [Region.from_file] at h
        cases hd : decodeChunkBytes fuel gset bytes with
        | error e => rw [hd] at h; simp at h
        | ok c =>
          rw [hd] at h
          cases hr : Region.from_file fuel gset rest with
          | error e => rw [hr] at h; simp [Except.map] at h
          | ok cs =>
            rw [hr] at h
            simp [Except.map] at h
            obtain rfl := h.symm
            obtain ⟨hlen, habs, hok⟩ := ih cs hr
            refine ⟨by simp [hlen], ?_, ?_⟩
            · intro i hi
              match i with
              | 0 => simp at hi
              | Nat.succ j =>
                simp only [List.getElem?_cons_succ] at hi ⊢
                exact habs j hi
            · intro i bytes2 hi
              match i with
              | 0 =>
                simp at hi
                subst hi
                exact ⟨c, by simp, hd⟩
              | Nat.succ j =>
                simp only [List.getElem?_cons_succ] at hi ⊢
                exact hok j bytes2 hi
  · intro fuel gset bytes rest e hd
    simp only [Region.from_file]
    rw [hd]

/-- The NBT bytes of a chunk whose Level compound holds an empty Sections
list: a root compound containing one empty-named compound, which contains
Level, which contains the list. -/
def goodChunkBytes : Bytes :=
  [10, 0, 0,
   10, 0, 5, 76, 101, 118, 101, 108,
   9, 0, 8, 83, 101, 99, 116, 105, 111, 110, 115,
   10, 0, 0, 0, 0,
   0,
   0]

/-- A chunk with all sixteen section slots empty. -/
def emptyChunk : Chunk := ⟨(List.range 16).map (fun _ => none)⟩

/-- C2 witness: a region with a failed read, a good chunk and an absent slot
decodes to exactly [None, Some chunk, None]. -/
theorem c2_witness :
    ([none, some emptyChunk, none] : List (Option Chunk)).length =
      [Slot.readErr, Slot.okBytes goodChunkBytes, Slot.absent].length ∧
    ([none, some emptyChunk, none] : List (Option Chunk))[0]? = some none := by
  have h := c2_read_failure_scoped.1 99 []
    [Slot.readErr, Slot.okBytes goodChunkBytes, Slot.absent]
    [none, some emptyChunk, none] rfl
  exact ⟨h.1, h.2.1 0 (Or.inr rfl)⟩

theorem foldlM_append_E {α β : Type} (f : β → α → Except RErr β) (l1 l2 : List α) (b : β) :
    (l1 ++ l2).foldlM f b = (l1.foldlM f b) >>= fun b2 => l2.foldlM f b2 := by
  induction l1 generalizing b with
  | nil => simp
  | cons x xs ih =>
    simp only [List.cons_append, List.foldlM_cons]
    cases f b x with
    | error e => rfl
    | ok b1 => simp [ih]

theorem Except_ok_bind {ε α β : Type} (a : α) (f : α → Except ε β) :
    (Except.ok a >>= f) = f a := rfl

theorem Except_error_bind {ε α β : Type} (e : ε) (f : α → Except ε β) :
    ((Except.error e : Except ε α) >>= f) = .error e := rfl

theorem chunkNewStep_length (gset : GraphPropsMap) (slots slots' : List (Option ChunkSection))
    (t : Tag) (h : chunkNewStep gset slots t = .ok slots') : slots'.length = slots.length := by
  unfold chunkNewStep at h
  cases hc : t.as_compound with
  | none => rw [hc] at h; cases h
  | some sc =>
    rw [hc] at h
    simp only at h
    cases hs : ChunkSection.new sc gset with
    | error e => rw [hs] at h; cases h
    | ok p =>
      obtain ⟨sect, yy⟩ := p
      rw [hs] at h
      simp only at h
      by_cases hcond : yy ≠ -1 ∧ sect.names ≠ []
      · rw [if_pos hcond] at h
        by_cases hlt : i8AsUsize yy < slots.length
        · rw [if_pos hlt] at h
          cases h
          simp
        · rw [if_neg hlt] at h
          cases h
      · rw [if_neg hcond] at h
        cases h
        rfl

theorem chunkFold_length (gset : GraphPropsMap) (l : List Tag) :
    ∀ slots slots', l.foldlM (chunkNewStep gset) slots = .ok slots' →
      slots'.length = slots.length := by
  induction l with
  | nil =>
    intro slots slots' h
    simp only [List.foldlM_nil] at h
    cases h
    rfl
  | cons t rest ih =>
    intro slots slots' h
    simp only [List.foldlM_cons] at h
    cases hstep : chunkNewStep gset slots t with
    | error e => rw [hstep] at h; cases h
    | ok mid =>
      rw [hstep] at h
      have h1 := ih mid slots' h
      have h2 := chunkNewStep_length gset slots mid t hstep
      omega

/-- The chunk NBT wrapper used in C10: a compound holding only Sections. -/
def mkChunkNbt (l : List Tag) : Compound := [("Sections", Tag.list l)]

/-- C10: a decoded section with Y = -1 or an empty palette is skipped
silently (Chunk::new behaves as if the section were absent), while a decoded
non-empty section whose Y is another negative value or at least 16 makes
Chunk::new abort with the out-of-bounds slot-assignment panic. -/
theorem c10_section_y_range (gset : GraphPropsMap) (pre post : List Tag) (sc : Compound)
    (csec : ChunkSection) (y : Int) (hy8 : -128 ≤ y ∧ y ≤ 127)
    (hsec : ChunkSection.new sc gset = .ok (csec, y)) :
    ((y = -1 ∨ csec.names = []) →
      Chunk.new (mkChunkNbt (pre ++ Tag.compound sc :: post)) gset =
        Chunk.new (mkChunkNbt (pre ++ post)) gset) ∧
    ((y ≠ -1 ∧ csec.names ≠ [] ∧ (y < -1 ∨ 16 ≤ y)) →
      ∀ slots, pre.foldlM (chunkNewStep gset)
          ((List.range 16).map (fun _ => none)) = .ok slots →
        Chunk.new (mkChunkNbt (pre ++ Tag.compound sc :: post)) gset = .error .fatal) := by
  have hnew : ∀ l : List Tag, Chunk.new (mkChunkNbt l) gset =
      match l.foldlM (chunkNewStep gset) ((List.range 16).map (fun _ => none)) with
      | .error e => .error e
      | .ok slots => Except.ok ⟨slots⟩ := fun _ => rfl
  constructor
  · intro hskip
    have hstep : ∀ slots, chunkNewStep gset slots (Tag.compound sc) = .ok slots := by
      intro slots
      unfold chunkNewStep
      simp only [Tag.as_compound]
      rw [hsec]
      simp only
      rw [if_neg]
      rcases hskip with h1 | h1
      · simp [h1]
      · simp [h1]
    rw [hnew, hnew]
    rw [foldlM_append_E, foldlM_append_E]
    cases hpre : pre.foldlM (chunkNewStep gset) ((List.range 16).map (fun _ => none)) with
    | error e => rfl
    | ok slots =>
      simp only [Except_ok_bind, List.foldlM_cons, hstep]
  · intro hbad slots hpre
    have hlen : slots.length = 16 := by
      have := chunkFold_length gset pre _ _ hpre
      simpa using this
    have hge : 16 ≤ i8AsUsize y := by
      unfold i8AsUsize
      have hp : (2 : Int) ^ 64 = 18446744073709551616 := by norm_num
      rw [hp]
      omega
    have hstep : chunkNewStep gset slots (Tag.compound sc) = .error .fatal := by
      unfold chunkNewStep
      simp only [Tag.as_compound]
      rw [hsec]
      simp only
      rw [if_pos ⟨hbad.1, hbad.2.1⟩, if_neg (by omega)]
    rw [hnew]
    rw [foldlM_append_E, hpre]
    simp only [Except_ok_bind, List.foldlM_cons, hstep, Except_error_bind]

/-- A section compound holding only Y = -1 (no palette). -/
def scY1 : Compound := [("Y", Tag.byte (-1))]

/-- C10 witness: a Y = -1 section is skipped, leaving Chunk::new equal to the
run without it. -/
theorem c10_witness :
    Chunk.new (mkChunkNbt [Tag.compound scY1]) [] = Chunk.new (mkChunkNbt []) [] :=
  (c10_section_y_range [] [] [] scY1 ⟨[], [], [], []⟩ (-1) (by decide) rfl).1
    (Or.inl rfl)

/-- C3 failing input: a palette entry with the two Properties a = 1, b = 2. -/
def blk3 : Compound :=
  [("Name", Tag.string "minecraft:blk"),
   ("Properties", Tag.compound [("a", Tag.string "1"), ("b", Tag.string "2")])]

/-- Graphic set for the C3 input. -/
def gset3 : GraphPropsMap := [("minecraft:blk", [("a", 0), ("b", 1)])]

/-- C3: the full-properties string for a two-entry Properties compound is the
key=value texts concatenated with no separator and the final character
chopped: the palette normalization of blk3 yields properties "a=1b=", not the
comma join "a=1,b=2" — String::pop removes the last character of the final
value because no comma was ever appended (map.rs lines 146-162, despite the
comment announcing removal of a trailing comma). -/
theorem c3_properties_no_comma :
    (paletteEntry gset3 blk3).map (fun e => e.2.1) = .ok "a=1b=" ∧
    "a=1b=" ≠ "a=1,b=2" := by
  refine ⟨?_, by decide⟩
  rfl

/-- The slot writes performed by the Properties loop, isolated from the
Except wrapper: fold the properties, setting the canonical slot for each
graphical key. -/
def applySlots (graphics : List (String × Nat)) (l : List (String × String))
    (s : List String) : List String :=
  l.foldl
    (fun s2 p =>
      match lookupA graphics p.1 with
      | some j => s2.set j (p.1 ++ "=" ++ p.2)
      | none => s2) s

theorem applySlots_cons_some (graphics : List (String × Nat)) (p : String × String)
    (rest : List (String × String)) (s : List String) (j : Nat)
    (hj : lookupA graphics p.1 = some j) :
    applySlots graphics (p :: rest) s =
      applySlots graphics rest (s.set j (p.1 ++ "=" ++ p.2)) := by
  simp only [applySlots, List.foldl_cons, hj]

theorem applySlots_cons_none (graphics : List (String × Nat)) (p : String × String)
    (rest : List (String × String)) (s : List String)
    (hj : lookupA graphics p.1 = none) :
    applySlots graphics (p :: rest) s = applySlots graphics rest s := by
  simp only [applySlots, List.foldl_cons, hj]

theorem applySlots_length (graphics : List (String × Nat)) (l : List (String × String)) :
    ∀ s : List String, (applySlots graphics l s).length = s.length := by
  induction l with
  | nil => intro s; rfl
  | cons p rest ih =>
    intro s
    cases hj : lookupA graphics p.1 with
    | some j =>
      rw [applySlots_cons_some graphics p rest s j hj, ih]
      simp
    | none => rw [applySlots_cons_none graphics p rest s hj, ih]

theorem applySlots_untouched (graphics : List (String × Nat))
    (l : List (String × String)) :
    ∀ (s : List String) (j : Nat),
      (∀ p ∈ l, lookupA graphics p.1 ≠ some j) →
      (applySlots graphics l s)[j]? = s[j]? := by
  induction l with
  | nil => intro s j _; rfl
  | cons p rest ih =>
    intro s j h
    cases hj : lookupA graphics p.1 with
    | some j2 =>
      have hne : j2 ≠ j := fun he => h p (List.mem_cons_self _ _) (he ▸ hj)
      rw [applySlots_cons_some graphics p rest s j2 hj,
        ih _ j (fun q hq => h q (List.mem_cons_of_mem _ hq)),
        List.getElem?_set_ne hne]
    | none =>
      rw [applySlots_cons_none graphics p rest s hj]
      exact ih s j (fun q hq => h q (List.mem_cons_of_mem _ hq))

theorem applySlots_find (graphics : List (String × Nat)) (l : List (String × String)) :
    ∀ (s : List String) (j : Nat), j < s.length → l.Nodup →
      (∀ p ∈ l, ∀ q ∈ l, lookupA graphics p.1 = some j →
        lookupA graphics q.1 = some j → p = q) →
      (applySlots graphics l s)[j]? =
        (match l.find? (fun p => lookupA graphics p.1 = some j) with
         | some p => some (p.1 ++ "=" ++ p.2)
         | none => s[j]?) := by
  induction l with
  | nil => intro s j _ _ _; rfl
  | cons p rest ih =>
    intro s j hj hnd huniq
    by_cases hp : lookupA graphics p.1 = some j
    · rw [List.find?_cons_of_pos _ (by simp [hp])]
      rw [applySlots_cons_some graphics p rest s j hp]
      rw [applySlots_untouched graphics rest _ j ?nowriter]
      case nowriter =>
        intro q hq hlq
        have hqp : q = p :=
          huniq q (List.mem_cons_of_mem _ hq) p (List.mem_cons_self _ _) hlq hp
        exact absurd (hqp ▸ hq) (List.nodup_cons.mp hnd).1
      rw [List.getElem?_set_self hj]
    · rw [List.find?_cons_of_neg _ (by simp [hp])]
      cases hj2 : lookupA graphics p.1 with
      | some j2 =>
        have hne : j2 ≠ j := fun he => hp (he ▸ hj2)
        rw [applySlots_cons_some graphics p rest s j2 hj2]
        rw [ih _ j (by simpa using hj) (List.nodup_cons.mp hnd).2
          (fun a ha b hb h1 h2 =>
            huniq a (List.mem_cons_of_mem _ ha) b (List.mem_cons_of_mem _ hb) h1 h2)]
        cases rest.find? (fun q => lookupA graphics q.1 = some j) with
        | some q => rfl
        | none => simp only [List.getElem?_set_ne hne]
      | none =>
        rw [applySlots_cons_none graphics p rest s hj2]
        exact ih s j hj (List.nodup_cons.mp hnd).2
          (fun a ha b hb h1 h2 =>
            huniq a (List.mem_cons_of_mem _ ha) b (List.mem_cons_of_mem _ hb) h1 h2)

theorem propFold_ok (graphics : List (String × Nat)) (l : List (String × String)) :
    ∀ (acc0 : String) (s0 : List String),
      (∀ p ∈ l, ∀ j, lookupA graphics p.1 = some j → j < s0.length) →
      ∃ propstr : String,
        (l.map (fun p => (p.1, Tag.string p.2))).foldlM (propStep graphics) (acc0, s0) =
          .ok (propstr, applySlots graphics l s0) := by
  induction l with
  | nil => intro acc0 s0 _; exact ⟨acc0, rfl⟩
  | cons p rest ih =>
    intro acc0 s0 h
    cases hj : lookupA graphics p.1 with
    | some j =>
      have hlt : j < s0.length := h p (List.mem_cons_self _ _) j hj
      obtain ⟨ps, hps⟩ := ih (acc0 ++ (p.1 ++ "=" ++ p.2)) (s0.set j (p.1 ++ "=" ++ p.2))
        (fun q hq j2 hj2 => by
          rw [List.length_set]
          exact h q (List.mem_cons_of_mem _ hq) j2 hj2)
      refine ⟨ps, ?_⟩
      rw [List.map_cons, List.foldlM_cons]
      have hstep : propStep graphics (acc0, s0) (p.1, Tag.string p.2) =
          .ok (acc0 ++ (p.1 ++ "=" ++ p.2), s0.set j (p.1 ++ "=" ++ p.2)) := by
        unfold propStep
        simp only [Tag.as_string, hj, if_pos hlt]
      rw [hstep, Except_ok_bind, hps, applySlots_cons_some graphics p rest s0 j hj]
    | none =>
      obtain ⟨ps, hps⟩ := ih (acc0 ++ (p.1 ++ "=" ++ p.2)) s0
        (fun q hq j2 hj2 => h q (List.mem_cons_of_mem _ hq) j2 hj2)
      refine ⟨ps, ?_⟩
      rw [List.map_cons, List.foldlM_cons]
      have hstep : propStep graphics (acc0, s0) (p.1, Tag.string p.2) =
          .ok (acc0 ++ (p.1 ++ "=" ++ p.2), s0) := by
        unfold propStep
        simp only [Tag.as_string, hj]
      rw [hstep, Except_ok_bind, hps, applySlots_cons_none graphics p rest s0 hj]

theorem strPop_append_comma (s : String) : strPop (s ++ ",") = s := by
  apply String.ext
  show ((s ++ ",").data).dropLast = s.data
  rw [String.data_append]
  exact List.dropLast_concat

theorem strPop_append_of_ne (s t : String) (ht : t ≠ "") :
    strPop (s ++ t) = s ++ strPop t := by
  have htd : t.data ≠ [] := by
    intro h
    exact ht (String.ext h)
  apply String.ext
  show ((s ++ t).data).dropLast = s.data ++ t.data.dropLast
  rw [String.data_append]
  exact List.dropLast_append_of_ne_nil s.data htd

theorem join_cons (s : String) (l : List String) :
    String.join (s :: l) = s ++ String.join l := by
  have shift : ∀ (l2 : List String) (x : String),
      l2.foldl (· ++ ·) x = x ++ l2.foldl (· ++ ·) "" := by
    intro l2
    induction l2 with
    | nil => intro x; simp [List.foldl_nil, String.append_empty]
    | cons y rest ih =>
      intro x
      rw [List.foldl_cons, List.foldl_cons, ih (x ++ y), ih ("" ++ y),
        String.empty_append, String.append_assoc]
  show (s :: l).foldl (· ++ ·) "" = s ++ l.foldl (· ++ ·) ""
  rw [List.foldl_cons, String.empty_append]
  exact shift l s

theorem joinCommas_pop (l : List String) :
    strPop (String.join (l.map (fun x => x ++ ","))) = joinCommas l := by
  induction l with
  | nil => rfl
  | cons x rest ih =>
    cases rest with
    | nil =>
      show strPop (String.join [x ++ ","]) = x
      rw [join_cons]
      have hnil : String.join ([] : List String) = "" := rfl
      rw [hnil, String.append_empty, strPop_append_comma]
    | cons y rest2 =>
      rw [List.map_cons, join_cons, strPop_append_of_ne]
      · rw [ih]
        rfl
      · intro he
        rw [List.map_cons, join_cons] at he
        have hlen := congrArg String.length he
        rw [String.length_append, String.length_append] at hlen
        have h1 : ",".length = 1 := rfl
        have h0 : ("" : String).length = 0 := rfl
        omega

theorem pairs_eq_of_fst_nodup {β : Type} (l : List (String × β))
    (hnd : (l.map Prod.fst).Nodup) :
    ∀ p ∈ l, ∀ q ∈ l, p.1 = q.1 → p = q := by
  induction l with
  | nil => intro p hp; cases hp
  | cons x rest ih =>
    intro p hp q hq he
    rw [List.map_cons, List.nodup_cons] at hnd
    rcases List.mem_cons.mp hp with h1 | h1 <;> rcases List.mem_cons.mp hq with h2 | h2
    · rw [h1, h2]
    · exfalso
      apply hnd.1
      have hqm : q.1 ∈ rest.map Prod.fst := List.mem_map_of_mem Prod.fst h2
      rw [h1] at he
      rw [he]
      exact hqm
    · exfalso
      apply hnd.1
      have hpm : p.1 ∈ rest.map Prod.fst := List.mem_map_of_mem Prod.fst h1
      rw [h2] at he
      rw [← he]
      exact hpm
    · exact ih hnd.2 p h1 q h2 he

theorem find?_perm_of_unique {α : Type} (p : α → Bool) (l1 l2 : List α)
    (hperm : l1.Perm l2)
    (huniq : ∀ a ∈ l1, ∀ b ∈ l1, p a = true → p b = true → a = b) :
    l1.find? p = l2.find? p := by
  cases h1 : l1.find? p with
  | some x =>
    have hx1 : p x = true := List.find?_some h1
    have hx2 : x ∈ l1 := List.mem_of_find?_eq_some h1
    cases h2 : l2.find? p with
    | some y =>
      have hy1 : p y = true := List.find?_some h2
      have hy2 : y ∈ l1 := hperm.mem_iff.mpr (List.mem_of_find?_eq_some h2)
      rw [huniq x hx2 y hy2 hx1 hy1]
    | none =>
      exact absurd hx1 (List.find?_eq_none.mp h2 x (hperm.subset hx2))
  | none =>
    cases h2 : l2.find? p with
    | some y =>
      exact absurd (List.find?_some h2)
        (List.find?_eq_none.mp h1 y (hperm.symm.subset (List.mem_of_find?_eq_some h2)))
    | none => rfl

theorem applySlots_spec (graphics : List (String × Nat)) (bprops : List (String × String))
    (hnd : (bprops.map Prod.fst).Nodup)
    (hinj : ∀ p ∈ bprops, ∀ q ∈ bprops, ∀ j, lookupA graphics p.1 = some j →
      lookupA graphics q.1 = some j → p.1 = q.1) :
    applySlots graphics bprops (List.replicate graphics.length "") =
      (List.range graphics.length).map (gpropSlotSpec graphics bprops) := by
  apply List.ext_getElem?
  intro j
  by_cases hj : j < graphics.length
  · rw [applySlots_find graphics bprops _ j (by simp [hj]) (hnd.of_map)
      (fun a ha b hb ha2 hb2 =>
        pairs_eq_of_fst_nodup bprops hnd a ha b hb (hinj a ha b hb j ha2 hb2))]
    rw [List.getElem?_map, List.getElem?_range hj]
    unfold gpropSlotSpec
    cases hf : bprops.find? (fun kv => lookupA graphics kv.1 = some j) with
    | some q => simp only [Option.map, hf]
    | none => simp only [Option.map, hf, List.getElem?_replicate, hj, if_true]
  · have hlen1 : (applySlots graphics bprops (List.replicate graphics.length "")).length =
        graphics.length := by
      rw [applySlots_length]; simp
    have h1 : (applySlots graphics bprops (List.replicate graphics.length ""))[j]? =
        none := List.getElem?_eq_none (by omega)
    have h2 : ((List.range graphics.length).map (gpropSlotSpec graphics bprops))[j]? =
        none := List.getElem?_eq_none (by simp; omega)
    rw [h1, h2]

theorem mapM_getElem {α β : Type} (f : α → Except RErr β) :
    ∀ (l : List α) (out : List β), l.mapM f = .ok out →
      ∀ (i : Nat) (x : α), l[i]? = some x →
        ∃ y, out[i]? = some y ∧ f x = .ok y := by
  intro l
  induction l with
  | nil => intro out h i x hx; simp at hx
  | cons a rest ih =>
    intro out h i x hx
    rw [List.mapM_cons] at h
    cases hfa : f a with
    | error e => rw [hfa, Except_error_bind] at h; cases h
    | ok y =>
      rw [hfa, Except_ok_bind] at h
      cases hrest : rest.mapM f with
      | error e => rw [hrest, Except_error_bind] at h; cases h
      | ok ys =>
        rw [hrest, Except_ok_bind] at h
        have hout : Except.ok (ε := RErr) (y :: ys) = .ok out := h
        have hout2 : y :: ys = out := by
          cases hout
          rfl
        subst hout2
        match i with
        | 0 =>
          simp at hx
          subst hx
          exact ⟨y, by simp, hfa⟩
        | Nat.succ n =>
          simp only [List.getElem?_cons_succ] at hx ⊢
          exact ih ys hrest n x hx

theorem finishSection_ok_shape (names properties graphic_props : List String)
    (indexes : List Nat) (sect : Compound) (cs : ChunkSection) (y : Int)
    (h : finishSection names properties graphic_props indexes sect = .ok (cs, y)) :
    cs = ⟨names, properties, graphic_props, indexes⟩ := by
  unfold finishSection at h
  cases hm : indexes.max? with
  | some m =>
    rw [hm] at h
    simp only at h
    by_cases h0 : names.length = 0
    · rw [if_pos h0] at h
      simp at h
    · rw [if_neg h0] at h
      by_cases heq : m = names.length - 1
      · rw [if_pos heq] at h
        simp only at h
        cases hy : lookupA sect "Y" with
        | none => rw [hy] at h; cases h
        | some yTag =>
          rw [hy] at h
          simp only at h
          cases hyi : yTag.as_i8 with
          | none => rw [hyi] at h; cases h
          | some yv =>
            rw [hyi] at h
            cases h
            rfl
      · rw [if_neg heq] at h
        simp at h
  | none =>
    rw [hm] at h
    simp only at h
    cases hy : lookupA sect "Y" with
    | none => rw [hy] at h; cases h
    | some yTag =>
      rw [hy] at h
      simp only at h
      cases hyi : yTag.as_i8 with
      | none => rw [hyi] at h; cases h
      | some yv =>
        rw [hyi] at h
        cases h
        rfl

theorem paletteEntry_gprops_ok (gset : GraphPropsMap) (block : Compound) (name : String)
    (graphics : List (String × Nat)) (bprops : List (String × String))
    (hname : lookupA block "Name" = some (Tag.string name))
    (hg : lookupA gset name = some graphics)
    (hprops : lookupA block "Properties" =
      some (Tag.compound (bprops.map (fun p => (p.1, Tag.string p.2)))))
    (hnd : (bprops.map Prod.fst).Nodup)
    (hrange : ∀ p ∈ bprops, ∀ j, lookupA graphics p.1 = some j → j < graphics.length)
    (hinj : ∀ p ∈ bprops, ∀ q ∈ bprops, ∀ j, lookupA graphics p.1 = some j →
      lookupA graphics q.1 = some j → p.1 = q.1) :
    (paletteEntry gset block).map (fun e => e.2.2) = .ok (gpropsSpec graphics bprops) := by
  obtain ⟨ps, hps⟩ := propFold_ok graphics bprops "" (List.replicate graphics.length "")
    (by
      intro p hp j hj
      rw [List.length_replicate]
      exact hrange p hp j hj)
  unfold paletteEntry
  rw [hname]
  simp only [Tag.as_string]
  rw [hg]
  simp only
  rw [hprops]
  simp only [Tag.as_compound]
  rw [hps]
  simp only [Except.map]
  rw [applySlots_spec graphics bprops hnd hinj]
  rw [joinCommas_pop]
  rfl

/-- C6: for a palette entry whose block has a known canonical graphic-key
ordering, the graphic_properties string places each key=value pair at its
canonical slot, fills absent slots with empty strings and joins slots with
commas trimming only the final separator (the spec-side gpropsSpec); the
result is invariant under permuting the NBT Properties iteration order; and
whenever ChunkSection::new decodes a palette containing this entry, the
corresponding graphic_props element is exactly that canonical string. -/
theorem c6_graphic_props_canonical (gset : GraphPropsMap) (block : Compound)
    (name : String) (graphics : List (String × Nat)) (bprops : List (String × String))
    (hname : lookupA block "Name" = some (Tag.string name))
    (hg : lookupA gset name = some graphics)
    (hprops : lookupA block "Properties" =
      some (Tag.compound (bprops.map (fun p => (p.1, Tag.string p.2)))))
    (hnd : (bprops.map Prod.fst).Nodup)
    (hrange : ∀ p ∈ bprops, ∀ j, lookupA graphics p.1 = some j → j < graphics.length)
    (hinj : ∀ p ∈ bprops, ∀ q ∈ bprops, ∀ j, lookupA graphics p.1 = some j →
      lookupA graphics q.1 = some j → p.1 = q.1) :
    (paletteEntry gset block).map (fun e => e.2.2) = .ok (gpropsSpec graphics bprops) ∧
    (∀ (block2 : Compound) (bprops2 : List (String × String)),
      bprops2.Perm bprops →
      lookupA block2 "Name" = some (Tag.string name) →
      lookupA block2 "Properties" =
        some (Tag.compound (bprops2.map (fun p => (p.1, Tag.string p.2)))) →
      (paletteEntry gset block2).map (fun e => e.2.2) =
        (paletteEntry gset block).map (fun e => e.2.2)) ∧
    (∀ (sect : Compound) (palette : List Tag) (cs : ChunkSection) (y : Int) (i : Nat),
      ChunkSection.new sect gset = .ok (cs, y) →
      lookupA sect "Palette" = some (Tag.list palette) →
      palette[i]? = some (Tag.compound block) →
      cs.graphic_props[i]? = some (gpropsSpec graphics bprops)) := by
  have hA := paletteEntry_gprops_ok gset block name graphics bprops hname hg hprops
    hnd hrange hinj
  refine ⟨hA, ?_, ?_⟩
  · intro block2 bprops2 hperm hname2 hprops2
    have hnd2 : (bprops2.map Prod.fst).Nodup :=
      ((hperm.map Prod.fst).nodup_iff).mpr hnd
    have hrange2 : ∀ p ∈ bprops2, ∀ j, lookupA graphics p.1 = some j →
        j < graphics.length := fun p hp => hrange p (hperm.subset hp)
    have hinj2 : ∀ p ∈ bprops2, ∀ q ∈ bprops2, ∀ j, lookupA graphics p.1 = some j →
        lookupA graphics q.1 = some j → p.1 = q.1 :=
      fun p hp q hq => hinj p (hperm.subset hp) q (hperm.subset hq)
    have hA2 := paletteEntry_gprops_ok gset block2 name graphics bprops2 hname2 hg
      hprops2 hnd2 hrange2 hinj2
    rw [hA2, hA]
    have hslots : ∀ j : Nat,
        gpropSlotSpec graphics bprops2 j = gpropSlotSpec graphics bprops j := by
      intro j
      unfold gpropSlotSpec
      rw [find?_perm_of_unique _ bprops2 bprops hperm
        (fun a ha b hb hpa hpb => by
          have h1 : lookupA graphics a.1 = some j := of_decide_eq_true hpa
          have h2 : lookupA graphics b.1 = some j := of_decide_eq_true hpb
          exact pairs_eq_of_fst_nodup bprops2 hnd2 a ha b hb
            (hinj2 a ha b hb j h1 h2))]
    unfold gpropsSpec
    rw [List.map_congr_left (fun j _ => hslots j)]
  · intro sect palette cs y i hnew hpal hpi
    unfold ChunkSection.new at hnew
    rw [hpal] at hnew
    simp only [Tag.as_list] at hnew
    cases hmap : palette.mapM (paletteBlock gset) with
    | error e => rw [hmap] at hnew; cases hnew
    | ok entries =>
      rw [hmap] at hnew
      simp only at hnew
      cases hbs : lookupA sect "BlockStates" with
      | none => rw [hbs] at hnew; cases hnew
      | some statesTag =>
        rw [hbs] at hnew
        simp only at hnew
        cases hsv : statesTag.as_i64_vec with
        | none => rw [hsv] at hnew; cases hnew
        | some statesI =>
          rw [hsv] at hnew
          simp only at hnew
          cases hidx : readIndexes statesI with
          | error e => rw [hidx] at hnew; cases hnew
          | ok indexes =>
            rw [hidx] at hnew
            simp only at hnew
            have hshape := finishSection_ok_shape _ _ _ _ _ _ _ hnew
            obtain ⟨yv, h1, h2⟩ := mapM_getElem (paletteBlock gset) palette entries
              hmap i (Tag.compound block) hpi
            have h2' : paletteEntry gset block = .ok yv := by
              unfold paletteBlock at h2
              simpa [Tag.as_compound] using h2
            rw [h2'] at hA
            simp only [Except.map] at hA
            have hval : yv.2.2 = gpropsSpec graphics bprops := Except.ok.inj hA
            rw [hshape]
            show (entries.map (fun e => e.2.2))[i]? = some (gpropsSpec graphics bprops)
            rw [List.getElem?_map, h1]
            simp [hval]

/-- C6 witness input: Properties listed as waterlogged then facing. -/
def blk6 : Compound :=
  [("Name", Tag.string "minecraft:b"),
   ("Properties", Tag.compound
     [("waterlogged", Tag.string "true"), ("facing", Tag.string "north")])]

/-- Canonical ordering [facing, waterlogged]. -/
def graphics6 : List (String × Nat) := [("facing", 0), ("waterlogged", 1)]

/-- Graphic set for the C6 witness. -/
def gset6 : GraphPropsMap := [("minecraft:b", graphics6)]

/-- C6 witness: the example from the spec evaluates to
facing=north,waterlogged=true despite the reversed iteration order. -/
theorem c6_witness :
    (paletteEntry gset6 blk6).map (fun e => e.2.2) =
      .ok (gpropsSpec graphics6 [("waterlogged", "true"), ("facing", "north")]) ∧
    gpropsSpec graphics6 [("waterlogged", "true"), ("facing", "north")] =
      "facing=north,waterlogged=true" := by
  refine ⟨?_, by decide⟩
  refine (c6_graphic_props_canonical gset6 blk6 "minecraft:b" graphics6
    [("waterlogged", "true"), ("facing", "north")] rfl rfl rfl (by decide)
    ?_ ?_).1
  · intro p hp j hj
    have hlen2 : graphics6.length = 2 := rfl
    rcases List.mem_cons.mp hp with h | h
    · subst h
      simp [lookupA, graphics6] at hj
      omega
    · rcases List.mem_cons.mp h with h2 | h2
      · subst h2
        simp [lookupA, graphics6] at hj
        omega
      · cases h2
  · intro p hp q hq j h1 h2
    rcases List.mem_cons.mp hp with h | h
    · rcases List.mem_cons.mp hq with h3 | h3
      · rw [h, h3]
      · rcases List.mem_cons.mp h3 with h4 | h4
        · subst h; subst h4
          simp [lookupA, graphics6] at h1 h2
          omega
        · cases h4
    · rcases List.mem_cons.mp h with h5 | h5
      · rcases List.mem_cons.mp hq with h3 | h3
        · subst h5; subst h3
          simp [lookupA, graphics6] at h1 h2
          omega
        · rcases List.mem_cons.mp h3 with h4 | h4
          · rw [h5, h4]
          · cases h4
      · cases h5

/-! ## C5: the bit-unpacking round trip -/

theorem ofBitsList_testBit (l : List Bool) :
    ∀ i : Nat, (ofBitsList l).testBit i = l.getD i false := by
  induction l with
  | nil => intro i; simp [ofBitsList]
  | cons b rest ih =>
    intro i
    cases i with
    | zero =>
      show (ofBitsList (b :: rest)).testBit 0 = b
      unfold ofBitsList
      rw [Nat.testBit_zero]
      cases b <;> simp [Nat.add_mul_mod_self_left]
    | succ n =>
      show (ofBitsList (b :: rest)).testBit (n + 1) = rest.getD n false
      unfold ofBitsList
      rw [Nat.testBit_add_one]
      have hdiv : ((if b then 1 else 0) + 2 * ofBitsList rest) / 2 = ofBitsList rest := by
        cases b <;> simp <;> omega
      rw [hdiv, ih n]

theorem streamBits_getD (b : Nat) (vals : List Nat) :
    ∀ (i j : Nat), i < vals.length → j < b →
      (streamBits vals b).getD (i * b + j) false = (vals.getD i 0).testBit j := by
  induction vals with
  | nil => intro i j hi _; simp at hi
  | cons v rest ih =>
    intro i j hi hj
    cases i with
    | zero =>
      simp only [streamBits, List.flatMap_cons]
      rw [Nat.zero_mul, Nat.zero_add]
      rw [List.getD_eq_getElem?_getD, List.getElem?_append_left (by simpa using hj)]
      simp [List.getElem?_map, List.getElem?_range, hj]
    | succ i2 =>
      simp only [streamBits, List.flatMap_cons]
      rw [List.getD_eq_getElem?_getD]
      have hlen : ((List.range b).map (fun j => v.testBit j)).length = b := by simp
      have hmul : (i2 + 1) * b = i2 * b + b := by ring
      rw [List.getElem?_append_right (by omega)]
      have hidx : (i2 + 1) * b + j -
          ((List.range b).map (fun j => v.testBit j)).length = i2 * b + j := by
        rw [hlen]; omega
      rw [hidx, ← List.getD_eq_getElem?_getD]
      have hi2 : i2 < rest.length := by simpa using hi
      have hrec := ih i2 j hi2 hj
      simpa [streamBits] using hrec

theorem packBits_length (vals : List Nat) (b : Nat) :
    (packBits vals b).length = (vals.length * b + 7) / 8 := by
  simp [packBits]

theorem packBits_byte (vals : List Nat) (b t : Nat)
    (ht8 : t / 8 < (vals.length * b + 7) / 8) :
    ∃ B, (packBits vals b)[t / 8]? = some B ∧
      B.testBit (t % 8) = (streamBits vals b).getD t false := by
  refine ⟨ofBitsList ((List.range 8).map
    (fun k => (streamBits vals b).getD (8 * (t / 8) + k) false)), ?_, ?_⟩
  · simp [packBits, List.getElem?_map, List.getElem?_range, ht8]
  · rw [ofBitsList_testBit]
    have h8 : t % 8 < 8 := Nat.mod_lt _ (by omega)
    rw [List.getD_eq_getElem?_getD, List.getElem?_map, List.getElem?_range h8]
    simp only [Option.map, Option.getD]
    rw [Nat.div_add_mod]

theorem mod_two_pow_succ_testBit (v n : Nat) :
    v % 2 ^ (n + 1) = v % 2 ^ n + (if v.testBit n then 2 ^ n else 0) := by
  have h1 : (2 : Nat) ^ (n + 1) = 2 ^ n * 2 := by ring
  rw [h1, Nat.mod_mul]
  rcases Nat.mod_two_eq_zero_or_one (v / 2 ^ n) with h | h <;>
    simp [Nat.testBit_to_div_mod, h]

theorem read_bits_succ (bytes : Bytes) (start n : Nat) :
    read_bits bytes start (n + 1) =
      (read_bits bytes start n) >>= (fun number => readBitsStep bytes start number n) := by
  unfold read_bits
  rw [List.range_succ, foldlM_append_E]
  cases hr : (List.range n).foldlM (readBitsStep bytes start) 0 with
  | error e => rfl
  | ok num =>
    rw [Except_ok_bind, Except_ok_bind]
    simp only [List.foldlM_cons, List.foldlM_nil]
    cases hs : readBitsStep bytes start num n with
    | error e => rfl
    | ok x => rfl

theorem read_bits_packBits (vals : List Nat) (b i : Nat) (hb : 0 < b) (hb32 : b ≤ 32)
    (hv : vals.getD i 0 < 2 ^ b) (hi : i < vals.length) :
    read_bits (packBits vals b) (i * b) b = .ok (vals.getD i 0) := by
  have key : ∀ n, n ≤ b →
      read_bits (packBits vals b) (i * b) n = .ok (vals.getD i 0 % 2 ^ n) := by
    intro n
    induction n with
    | zero =>
      intro _
      show (List.range 0).foldlM (readBitsStep (packBits vals b) (i * b)) 0 =
        .ok (vals.getD i 0 % 2 ^ 0)
      rw [Nat.pow_zero, Nat.mod_one]
      rfl
    | succ m ihm =>
      intro hm
      rw [read_bits_succ, ihm (by omega), Except_ok_bind]
      have hmul1 : (i + 1) * b = i * b + b := by ring
      have hmul2 : (i + 1) * b ≤ vals.length * b := Nat.mul_le_mul_right b hi
      have htlt : i * b + m < vals.length * b := by omega
      obtain ⟨B, hBsome, hBbit⟩ := packBits_byte vals b (i * b + m) (by omega)
      rw [streamBits_getD b vals i m hi (by omega)] at hBbit
      unfold readBitsStep
      rw [hBsome]
      simp only
      have hand : B &&& (1 <<< ((i * b + m) % 8)) =
          (if (vals.getD i 0).testBit m then 2 ^ ((i * b + m) % 8) else 0) := by
        rw [Nat.one_shiftLeft, Nat.and_two_pow, hBbit]
        cases hv2 : (vals.getD i 0).testBit m <;> simp
      rw [hand]
      by_cases hbit : (vals.getD i 0).testBit m
      · rw [if_pos hbit]
        rw [if_pos (Nat.two_pow_pos ((i * b + m) % 8)).ne']
        rw [if_neg (by omega : ¬ 32 ≤ m), mod_two_pow_succ_testBit]
        simp only [List.getD_eq_getElem?_getD] at hbit
        simp [hbit]
      · rw [if_neg hbit]
        rw [if_neg (by simp)]
        rw [mod_two_pow_succ_testBit]
        simp only [List.getD_eq_getElem?_getD] at hbit
        simp [hbit]
  have hfin := key b (Nat.le_refl b)
  rw [hfin, Nat.mod_eq_of_lt hv]

/-- C5: the decoder derives bits-per-entry as max(4, totalbits/4096), and
repacking any 4096 palette indices below n into max(4, ceil(log2 n)) bits
per entry and unpacking them through read_bits reproduces every index. -/
theorem c5_bit_roundtrip (n : Nat) (vals : List Nat)
    (hn : 0 < n) (hbound : n ≤ 2 ^ 32) (hlen : vals.length = 4096)
    (hvals : ∀ v ∈ vals, v < n) :
    max ((packBits vals (max 4 (Nat.clog 2 n))).length * 8 / 4096) 4 =
      max 4 (Nat.clog 2 n) ∧
    ∀ i, i < 4096 →
      read_bits (packBits vals (max 4 (Nat.clog 2 n)))
        (i * max 4 (Nat.clog 2 n)) (max 4 (Nat.clog 2 n)) = .ok (vals.getD i 0) := by
  set b := max 4 (Nat.clog 2 n) with hbdef
  have hb4 : 4 ≤ b := le_max_left _ _
  have hb32 : b ≤ 32 := by
    have hclog : Nat.clog 2 n ≤ 32 := by
      have h1 : Nat.clog 2 n ≤ Nat.clog 2 (2 ^ 32) :=
        Nat.clog_mono_right 2 hbound
      have h2 : Nat.clog 2 (2 ^ 32) = 32 := Nat.clog_pow 2 32 (by norm_num)
      omega
    omega
  have hlenB : (packBits vals b).length = 512 * b := by
    rw [packBits_length, hlen]
    omega
  constructor
  · rw [hlenB]
    omega
  · intro i hi
    have hilen : i < vals.length := by omega
    have hvlt : vals.getD i 0 < 2 ^ b := by
      have hmem : vals.getD i 0 ∈ vals := by
        rw [List.getD_eq_getElem?_getD, List.getElem?_eq_getElem hilen]
        exact List.getElem_mem hilen
      have h1 : vals.getD i 0 < n := hvals _ hmem
      have h2 : n ≤ 2 ^ Nat.clog 2 n := Nat.le_pow_clog (by norm_num) n
      have h3 : (2 : Nat) ^ Nat.clog 2 n ≤ 2 ^ b :=
        Nat.pow_le_pow_right (by norm_num) (le_max_right _ _)
      omega
    exact read_bits_packBits vals b i (by omega) hb32 hvlt hilen

/-- C5 witness: a single-entry palette with all 4096 indices zero. -/
theorem c5_witness :
    max ((packBits (List.replicate 4096 0) (max 4 (Nat.clog 2 1))).length * 8 / 4096) 4 =
      max 4 (Nat.clog 2 1) :=
  (c5_bit_roundtrip 1 (List.replicate 4096 0) (by decide) (by norm_num)
    (List.length_replicate 4096 0)
    (fun v hv => by rw [List.eq_of_mem_replicate hv]; exact Nat.one_pos)).1


/-! ## C7: overlay compositing and the column walk -/

theorem put_pix (img : Image) (a b : Nat) (p : Pixel) (u v : Nat) :
    (img.put a b p).pix u v = if u = a ∧ v = b then p else img.pix u v := rfl

theorem foldl_range_succ {α : Type} (f : α → Nat → α) (b : α) (n : Nat) :
    (List.range (n + 1)).foldl f b = f ((List.range n).foldl f b) n := by
  rw [List.range_succ, List.foldl_append, List.foldl_cons, List.foldl_nil]

theorem overlayCell_apply (top : Image) (x y dx : Nat) (img2 : Image) (dy : Nat) :
    overlayCell top x y dx img2 dy =
      if (img2.pix (x + dx) (y + dy)).a = 0 then
        img2.put (x + dx) (y + dy) (top.pix dx dy)
      else img2 := rfl

theorem overlayCol_pix (top : Image) (x y dx : Nat) :
    ∀ (h : Nat) (img : Image) (p q : Nat),
      ((List.range h).foldl (overlayCell top x y dx) img).pix p q =
        (if p = x + dx ∧ y ≤ q ∧ q < y + h then
          (if (img.pix p q).a = 0 then top.pix dx (q - y) else img.pix p q)
        else img.pix p q) := by
  intro h
  induction h with
  | zero =>
    intro img p q
    rw [if_neg (by omega)]
    rfl
  | succ h2 ih =>
    intro img p q
    rw [foldl_range_succ]
    have hF : ((List.range h2).foldl (overlayCell top x y dx) img).pix (x + dx) (y + h2)
        = img.pix (x + dx) (y + h2) := by
      rw [ih img (x + dx) (y + h2), if_neg (by omega)]
    show (overlayCell top x y dx ((List.range h2).foldl (overlayCell top x y dx) img) h2).pix p q = _
    rw [overlayCell_apply]
    by_cases halpha :
        (((List.range h2).foldl (overlayCell top x y dx) img).pix (x + dx) (y + h2)).a = 0
    · rw [if_pos halpha]
      rw [hF] at halpha
      by_cases hpq : p = x + dx ∧ q = y + h2
      · obtain ⟨hp, hq⟩ := hpq
        rw [put_pix, if_pos ⟨hp, hq⟩]
        rw [if_pos (by omega)]
        rw [if_pos (by rw [hp, hq]; exact halpha)]
        rw [hq, Nat.add_sub_cancel_left]
      · rw [put_pix, if_neg hpq]
        rw [ih img p q]
        by_cases hc : p = x + dx ∧ y ≤ q ∧ q < y + h2
        · rw [if_pos hc,
            if_pos (show p = x + dx ∧ y ≤ q ∧ q < y + (h2 + 1) by omega)]
        · rw [if_neg hc, if_neg ?notnew]
          case notnew =>
            intro hcc
            obtain ⟨h1, h2b, h3⟩ := hcc
            have hnlt : ¬(q < y + h2) := fun hlt => hc ⟨h1, h2b, hlt⟩
            have hqe : q = y + h2 := by omega
            exact hpq ⟨h1, hqe⟩
    · rw [if_neg halpha]
      rw [hF] at halpha
      rw [ih img p q]
      by_cases hc : p = x + dx ∧ y ≤ q ∧ q < y + h2
      · rw [if_pos hc,
          if_pos (show p = x + dx ∧ y ≤ q ∧ q < y + (h2 + 1) by omega)]
      · by_cases hpq : p = x + dx ∧ q = y + h2
        · obtain ⟨hp, hq⟩ := hpq
          rw [if_neg hc, if_pos (by omega)]
          rw [if_neg (by rw [hp, hq]; exact halpha)]
        · rw [if_neg hc, if_neg ?notnew2]
          case notnew2 =>
            intro hcc
            obtain ⟨h1, h2b, h3⟩ := hcc
            have hnlt : ¬(q < y + h2) := fun hlt => hc ⟨h1, h2b, hlt⟩
            have hqe : q = y + h2 := by omega
            exact hpq ⟨h1, hqe⟩

theorem overlayCol_apply (top : Image) (x y : Nat) (img1 : Image) (dx : Nat) :
    overlayCol top x y img1 dx =
      (List.range top.height).foldl (overlayCell top x y dx) img1 := rfl

theorem overlay_pix_general (top : Image) (x y : Nat) :
    ∀ (w : Nat) (bottom : Image) (p q : Nat),
      ((List.range w).foldl (overlayCol top x y) bottom).pix p q =
        (if x ≤ p ∧ p < x + w ∧ y ≤ q ∧ q < y + top.height then
          (if (bottom.pix p q).a = 0 then top.pix (p - x) (q - y) else bottom.pix p q)
        else bottom.pix p q) := by
  intro w
  induction w with
  | zero =>
    intro bottom p q
    rw [if_neg (by omega)]
    rfl
  | succ w2 ih =>
    intro bottom p q
    rw [foldl_range_succ]
    show (overlayCol top x y ((List.range w2).foldl (overlayCol top x y) bottom) w2).pix p q = _
    rw [overlayCol_apply]
    rw [overlayCol_pix top x y w2]
    by_cases hcol : p = x + w2 ∧ y ≤ q ∧ q < y + top.height
    · rw [if_pos hcol]
      have hW : ((List.range w2).foldl (overlayCol top x y) bottom).pix p q
          = bottom.pix p q := by
        rw [ih bottom p q, if_neg (by omega)]
      rw [hW]
      rw [if_pos (show x ≤ p ∧ p < x + (w2 + 1) ∧ y ≤ q ∧ q < y + top.height by omega)]
      obtain ⟨hp, hy1, hy2⟩ := hcol
      rw [hp, Nat.add_sub_cancel_left]
    · rw [if_neg hcol, ih bottom p q]
      by_cases hc : x ≤ p ∧ p < x + w2 ∧ y ≤ q ∧ q < y + top.height
      · rw [if_pos hc,
          if_pos (show x ≤ p ∧ p < x + (w2 + 1) ∧ y ≤ q ∧ q < y + top.height by omega)]
      · rw [if_neg hc, if_neg ?notnew3]
        case notnew3 =>
          intro hcc
          obtain ⟨h1, h2b, h3, h4⟩ := hcc
          have hnlt : ¬(p < x + w2) := fun hlt => hc ⟨h1, hlt, h3, h4⟩
          have hpe : p = x + w2 := by omega
          exact hcol ⟨hpe, h3, h4⟩

/-- C7: the overlay rule is pointwise exactly the spec (copy the source texel
where the destination alpha is zero inside the pasted window, leave every
other texel untouched), a resolved opaque texture is pasted at (x*16, z*16)
and ends the column walk there, and a resolved transparent texture is pasted
and the walk continues downward on the updated raster and cache. -/
theorem c7_textured_compositing :
    (∀ (bottom top : Image) (x y p q : Nat),
      (overlay bottom top x y).pix p q =
        (if x ≤ p ∧ p < x + top.width ∧ y ≤ q ∧ q < y + top.height then
          (if (bottom.pix p q).a = 0 then top.pix (p - x) (q - y) else bottom.pix p q)
        else bottom.pix p q)) ∧
    (∀ (res : Resources) (region : Region) (ignore : List String) (x z y : Nat)
        (img : Image) (st st2 : TextureLoader) (i : Nat)
        (t : Image × Bool × (Nat × Nat × Nat)),
      region.get_block x y z ∉ ignore →
      resolveTexture res st (region.get_block x y z) (region.get_gprop x y z) =
        .ok (some i, st2) →
      st2.textures[i]? = some t →
      t.2.1 = false →
      renderColumn res region ignore x z (y + 1) img st =
        .ok (overlay img t.1 (x * 16) (z * 16), st2)) ∧
    (∀ (res : Resources) (region : Region) (ignore : List String) (x z y : Nat)
        (img : Image) (st st2 : TextureLoader) (i : Nat)
        (t : Image × Bool × (Nat × Nat × Nat)),
      region.get_block x y z ∉ ignore →
      resolveTexture res st (region.get_block x y z) (region.get_gprop x y z) =
        .ok (some i, st2) →
      st2.textures[i]? = some t →
      t.2.1 = true →
      renderColumn res region ignore x z (y + 1) img st =
        renderColumn res region ignore x z y (overlay img t.1 (x * 16) (z * 16)) st2) := by
  refine ⟨?_, ?_, ?_⟩
  · intro bottom top x y p q
    unfold overlay
    exact overlay_pix_general top x y top.width bottom p q
  · intro res region ignore x z y img st st2 i t hig hres ht htr
    unfold renderColumn
    rw [if_neg hig, hres]
    simp only
    rw [ht]
    simp only
    rw [htr]
    rw [if_pos rfl]
  · intro res region ignore x z y img st st2 i t hig hres ht htr
    conv_lhs => rw [renderColumn]
    rw [if_neg hig, hres]
    simp only
    rw [ht]
    simp only
    rw [htr]
    rw [if_neg (by simp)]

/-- The empty region used by the C7 witness. -/
def region0 : Region := ⟨[]⟩

/-- An opaque 16 by 16 texture. -/
def tex0 : Image := ⟨16, 16, fun _ _ => ⟨1, 2, 3, 255⟩⟩

/-- A loader state whose cache already resolves (minecraft:air, "") to the
opaque texture handle 0. -/
def st7 : TextureLoader :=
  ⟨[(tex0, false, (0, 0, 0))], [(("minecraft:air", ""), some 0)], []⟩

/-- Empty resources. -/
def res0 : Resources := ⟨fun _ => none, fun _ => none, fun _ => none⟩

/-- The zeroed render target. -/
def img0 : Image := ⟨8192, 8192, fun _ _ => ⟨0, 0, 0, 0⟩⟩

/-- C7 witness: a column whose top block resolves to an opaque texture stops
immediately, returning the overlay of that texture. -/
theorem c7_witness :
    renderColumn res0 region0 [] 0 0 1 img0 st7 =
      .ok (overlay img0 tex0 (0 * 16) (0 * 16), st7) :=
  c7_textured_compositing.2.1 res0 region0 [] 0 0 0 img0 st7 st7 0
    (tex0, false, (0, 0, 0)) (by simp) rfl rfl rfl

end MineViewer